import Mathlib

/-!
Verification development for the predictive-browser extension.

The definitions below are a shallow embedding of the repository source:
* `src/content/extractor.ts` — bounded DOM skeleton extraction,
* `src/content/transformer.ts` — 3-tier element location, edit execution,
  cleanup (the file contains an earlier and a later revision; the embedding
  follows the later revision, the one all line references point into),
* `src/background/llm-engine.ts` — defensive response parsing.

Machine text is modelled with Lean `String`s, but every operation on them is
implemented over the underlying character list so that all definitions
evaluate inside the kernel.  The live DOM is modelled as a finite tree of
elements; layout- and computed-style reads (`offsetHeight`,
`getComputedStyle(...).position`, ...) are modelled as per-element fields
captured at read time.
-/

namespace PB

/-! ## Character-list string toolkit -/

/-- Characters of a string. -/
def chData (s : String) : List Char := s.data

/-- Builds a string back from characters. -/
def ofChars (l : List Char) : String := String.mk l

/-- Length in characters (JS `.length` on the BMP text used here). -/
def strLen (s : String) : Nat := s.data.length

/-- JS `String.prototype.slice(0, n)`. -/
def strTake (s : String) (n : Nat) : String := ofChars (s.data.take n)

/-- JS `String.prototype.slice(n)`. -/
def strDrop (s : String) (n : Nat) : String := ofChars (s.data.drop n)

/-- Removes the last `n` characters. -/
def strDropRight (s : String) (n : Nat) : String :=
  ofChars (s.data.take (s.data.length - n))

/-- ASCII lower-casing of one character (enough for the tag/text data here). -/
def lowerChar (c : Char) : Char :=
  if 'A' ≤ c ∧ c ≤ 'Z' then Char.ofNat (c.toNat + 32) else c

/-- JS `String.prototype.toLowerCase` (ASCII fragment). -/
def strToLower (s : String) : String := ofChars (s.data.map lowerChar)

/-- Whitespace test used by `trim` and `\s`. -/
def isWSChar (c : Char) : Bool := c.isWhitespace

/-- JS `String.prototype.trim`. -/
def strTrim (s : String) : String :=
  ofChars (((s.data.dropWhile isWSChar).reverse.dropWhile isWSChar).reverse)

/-- Splits a character list into maximal whitespace-free words. -/
def wordsAux (cur : List Char) : List Char → List (List Char)
  | [] => if cur.isEmpty then [] else [cur.reverse]
  | c :: rest =>
    if isWSChar c then
      if cur.isEmpty then wordsAux [] rest
      else cur.reverse :: wordsAux [] rest
    else wordsAux (c :: cur) rest

/-- Joins words with single spaces. -/
def joinWords : List (List Char) → List Char
  | [] => []
  | [w] => w
  | w :: rest => w ++ ' ' :: joinWords rest

/-- JS `s.trim().replace(/\s+/g, " ")`: trim, then collapse whitespace runs. -/
def normalizeWS (s : String) : String := ofChars (joinWords (wordsAux [] s.data))

/-- Substring containment test, JS `String.prototype.includes`. -/
def containsSub (needle : String) : List Char → Bool
  | [] => needle.data.isEmpty
  | c :: rest => needle.data.isPrefixOf (c :: rest) || containsSub needle rest

/-- String-level wrapper for `containsSub`. -/
def strContains (hay needle : String) : Bool := containsSub needle hay.data

/-- JS `String.prototype.startsWith`. -/
def strStartsWith (s pre : String) : Bool := pre.data.isPrefixOf s.data

/-- JS `String.prototype.endsWith`. -/
def strEndsWith (s suf : String) : Bool := suf.data.isSuffixOf s.data

/-- Digit character for a value below ten. -/
def digitChar (d : Nat) : Char := Char.ofNat (48 + d)

/-- Decimal digits, most significant first; structural on a fuel bound so the
kernel can evaluate it (`fuel ≥ n` suffices). -/
def natDigitsAux (fuel : Nat) (n : Nat) : List Char :=
  match fuel with
  | 0 => []
  | fuel + 1 =>
    if n < 10 then [digitChar n]
    else natDigitsAux fuel (n / 10) ++ [digitChar (n % 10)]

/-- Decimal digits of a natural number, most significant first. -/
def natDigits (n : Nat) : List Char := natDigitsAux (n + 1) n

/-- Decimal rendering of a natural number (JS template-literal insertion). -/
def natToStr (n : Nat) : String := ofChars (natDigits n)

/-- Numeric value of a digit character. -/
def digitVal (c : Char) : Nat := c.toNat - 48

/-- Folds digit characters back into the number they denote. -/
def digitsVal (l : List Char) : Nat := l.foldl (fun acc c => 10 * acc + digitVal c) 0

theorem digitsVal_append_digit (l : List Char) (c : Char) :
    digitsVal (l ++ [c]) = 10 * digitsVal l + digitVal c := by
  simp [digitsVal, List.foldl_append]

theorem digitVal_digitChar {d : Nat} (h : d < 10) : digitVal (digitChar d) = d := by
  interval_cases d <;> decide

theorem digitsVal_natDigitsAux : ∀ fuel n, 0 < fuel → n ≤ fuel →
    digitsVal (natDigitsAux fuel n) = n := by
  intro fuel
  induction fuel with
  | zero => omega
  | succ fuel ih =>
    intro n _ hle
    rw [natDigitsAux]
    split
    · next h => simpa [digitsVal] using digitVal_digitChar h
    · next h =>
      rw [digitsVal_append_digit, ih (n / 10) (by omega) (by omega),
        digitVal_digitChar (Nat.mod_lt _ (by omega))]
      omega

theorem digitsVal_natDigits (n : Nat) : digitsVal (natDigits n) = n :=
  digitsVal_natDigitsAux (n + 1) n (by omega) (by omega)

theorem natToStr_injective : Function.Injective natToStr := by
  intro m n h
  have : digitsVal (natDigits m) = digitsVal (natDigits n) := by
    have hd : natDigits m = natDigits n := congrArg String.data h
    rw [hd]
  rwa [digitsVal_natDigits, digitsVal_natDigits] at this

/-! ## DOM model

An element carries an id (`eid`) standing for JS object identity, its tag,
attribute and inline-style association lists, the layout/computed values the
source reads, its own (direct) text, and two child lists: the light children
and, when `hasShadow` is set, the children of an attached open shadow root
(`elem.shadowRoot`; a closed or absent shadow root is `hasShadow = false`).
-/

structure ElemData where
  eid : Nat
  tag : String
  attrs : List (String × String) := []
  styles : List (String × String) := []
  offsetWidth : Nat := 1
  offsetHeight : Nat := 1
  computedDisplay : String := "block"
  computedVisibility : String := "visible"
  computedPosition : String := "static"
  computedPaddingLeft : Nat := 0
  computedFontSize : Nat := 16
  ownText : String := ""
  hasShadow : Bool := false
deriving Repr, DecidableEq

inductive Elem where
  | mk (d : ElemData) (children : List Elem) (shadowChildren : List Elem)
deriving Repr

/-- Scalar data of an element. -/
def Elem.dta : Elem → ElemData
  | .mk d _ _ => d

/-- Light-DOM children (`Element.children`). -/
def Elem.children : Elem → List Elem
  | .mk _ cs _ => cs

/-- Children of the open shadow root, if any. -/
def Elem.shadowChildren : Elem → List Elem
  | .mk _ _ sh => sh

/-- Association-list read, JS `getAttribute` (`none` when absent). -/
def alGet (l : List (String × String)) (k : String) : Option String :=
  match l with
  | [] => none
  | (k0, v0) :: rest => if k0 = k then some v0 else alGet rest k

/-- Association-list write, JS `setAttribute` semantics. -/
def alSet (l : List (String × String)) (k v : String) : List (String × String) :=
  match l with
  | [] => [(k, v)]
  | (k0, v0) :: rest => if k0 = k then (k, v) :: rest else (k0, v0) :: alSet rest k v

/-- Association-list delete, JS `removeAttribute` / `delete dataset[k]`. -/
def alDel (l : List (String × String)) (k : String) : List (String × String) :=
  match l with
  | [] => []
  | (k0, v0) :: rest => if k0 = k then alDel rest k else (k0, v0) :: alDel rest k

/-- Attribute of an element. -/
def getAttr (e : Elem) (k : String) : Option String := alGet e.dta.attrs k

/-- Inline-style read; JS `el.style.x` yields the empty string when unset. -/
def getStyle (e : Elem) (k : String) : String := (alGet e.dta.styles k).getD ""

/-- Truthiness of a `dataset` read: present and non-empty. -/
def truthyAttr (e : Elem) (k : String) : Bool :=
  match getAttr e k with
  | none => false
  | some v => v ≠ ""

/-- Data update on one element's scalar record. -/
def dSetAttr (d : ElemData) (k v : String) : ElemData := { d with attrs := alSet d.attrs k v }

def dDelAttr (d : ElemData) (k : String) : ElemData := { d with attrs := alDel d.attrs k }

def dSetStyle (d : ElemData) (k v : String) : ElemData := { d with styles := alSet d.styles k v }

mutual
/-- Applies `f` to the scalar data of the element with id `eid` (everywhere it
occurs; ids are unique in well-formed documents). -/
def mapData (eid : Nat) (f : ElemData → ElemData) : Elem → Elem
  | .mk d cs sh =>
    .mk (if d.eid = eid then f d else d) (mapDataL eid f cs) (mapDataL eid f sh)

def mapDataL (eid : Nat) (f : ElemData → ElemData) : List Elem → List Elem
  | [] => []
  | c :: rest => mapData eid f c :: mapDataL eid f rest
end

mutual
/-- Applies `f` to the scalar data of every element. -/
def mapAll (f : ElemData → ElemData) : Elem → Elem
  | .mk d cs sh => .mk (f d) (mapAllL f cs) (mapAllL f sh)

def mapAllL (f : ElemData → ElemData) : List Elem → List Elem
  | [] => []
  | c :: rest => mapAll f c :: mapAllL f rest
end

mutual
/-- All elements of the light DOM in document (pre-)order, root included.
Shadow subtrees are not reachable from `document.querySelectorAll`. -/
def allElems : Elem → List Elem
  | .mk d cs sh => .mk d cs sh :: allElemsL cs

def allElemsL : List Elem → List Elem
  | [] => []
  | c :: rest => allElems c ++ allElemsL rest
end

/-- First light-DOM element satisfying `p`, in document order. -/
def firstElem (e : Elem) (p : Elem → Bool) : Option Elem := (allElems e).find? p

mutual
/-- Element addressing by id: first match in document order (model-level
addressing standing for JS object identity). -/
def byEid (root : Elem) (x : Nat) : Option Elem :=
  match root with
  | .mk d cs sh => if d.eid = x then some (.mk d cs sh) else byEidL x cs

def byEidL (x : Nat) : List Elem → Option Elem
  | [] => none
  | c :: rest =>
    match byEid c x with
    | some r => some r
    | none => byEidL x rest
end

mutual
/-- JS `Node.textContent`: concatenated text of the light subtree. -/
def textContent : Elem → String
  | .mk d cs _ => d.ownText ++ textContentL cs

def textContentL : List Elem → String
  | [] => ""
  | c :: rest => textContent c ++ textContentL rest
end

mutual
/-- Strict-ancestor chain of `eid` (nearest first), `parentElement` iterated. -/
def ancestorsOf (eid : Nat) : Elem → Option (List Elem)
  | .mk d cs sh =>
    if d.eid = eid then some []
    else match ancestorsOfL eid cs with
      | some l => some (l ++ [.mk d cs sh])
      | none => none

def ancestorsOfL (eid : Nat) : List Elem → Option (List Elem)
  | [] => none
  | c :: rest =>
    match ancestorsOf eid c with
    | some l => some l
    | none => ancestorsOfL eid rest
end

mutual
/-- Removes the subtree rooted at `eid` (the root itself is never removed). -/
def removeSubtree (eid : Nat) : Elem → Elem
  | .mk d cs sh => .mk d (removeSubtreeL eid cs) sh

def removeSubtreeL (eid : Nat) : List Elem → List Elem
  | [] => []
  | c :: rest =>
    if c.dta.eid = eid then removeSubtreeL eid rest
    else removeSubtree eid c :: removeSubtreeL eid rest
end

mutual
/-- Removes every light-DOM element satisfying `p`, subtree included
(JS `querySelectorAll(sel).forEach(el => el.remove())`). -/
def removeMatching (p : Elem → Bool) : Elem → Elem
  | .mk d cs sh => .mk d (removeMatchingL p cs) sh

def removeMatchingL (p : Elem → Bool) : List Elem → List Elem
  | [] => []
  | c :: rest =>
    if p c then removeMatchingL p rest
    else removeMatching p c :: removeMatchingL p rest
end

/-- Insertion into a child list before the child with id `refEid`
(append when `refEid` is `none`, JS `insertBefore(el, null)`). -/
def insertIntoList (sub : Elem) (refEid : Option Nat) : List Elem → List Elem
  | [] => [sub]
  | c :: rest =>
    if refEid = some c.dta.eid then sub :: c :: rest
    else c :: insertIntoList sub refEid rest

mutual
/-- JS `parent.insertBefore(sub, ref)` where `parent` is the element with id
`parentEid` and `ref` the child with id `refEid` (or `none` to append). -/
def insertBeforeIn (parentEid : Nat) (refEid : Option Nat) (sub : Elem) : Elem → Elem
  | .mk d cs sh =>
    if d.eid = parentEid then .mk d (insertIntoList sub refEid cs) sh
    else .mk d (insertBeforeInL parentEid refEid sub cs) sh

def insertBeforeInL (parentEid : Nat) (refEid : Option Nat) (sub : Elem) : List Elem → List Elem
  | [] => []
  | c :: rest => insertBeforeIn parentEid refEid sub c :: insertBeforeInL parentEid refEid sub rest
end

/-- Sets an attribute on the element with id `eid`. -/
def setAttrById (root : Elem) (eid : Nat) (k v : String) : Elem :=
  mapData eid (fun d => dSetAttr d k v) root

/-- Sets an inline style on the element with id `eid`. -/
def setStyleById (root : Elem) (eid : Nat) (k v : String) : Elem :=
  mapData eid (fun d => dSetStyle d k v) root

/-- Document ids in document order (light DOM). -/
def docEids (root : Elem) : List Nat := (allElems root).map (fun e => e.dta.eid)

/-- Child ids of the element with id `eid`. -/
def childEids (root : Elem) (eid : Nat) : Option (List Nat) :=
  (byEid root eid).map (fun e => e.children.map (fun c => c.dta.eid))

/-! ## Selector language

The source builds CSS selector strings of five closed shapes — the marker
query stamped by the extractor, `#id`, `[data-testid="..."]`,
`[aria-label="..."]`, and `" > "`-joined positional paths of
`tag`/`tag:nth-child(i)` parts anchored at `body`.  The embedding keeps them
as an AST; `querySel` is `document.querySelector` restricted to these shapes
(first match in document order). -/

inductive PathPart where
  | part (tag : String) (nth : Option Nat)
deriving Repr, DecidableEq

inductive Sel where
  | marker (nodeId : String)
  | byId (v : String)
  | byTestId (v : String)
  | byAria (v : String)
  | pathSel (parts : List PathPart)
  | emptySel
deriving Repr, DecidableEq

/-- One positional part matched against an element sitting at (1-based)
position `idx` in its parent's child list. -/
def matchPart (e : Elem) (idx : Nat) : PathPart → Bool
  | .part t nth => e.dta.tag = t && (nth = none || nth = some idx)

/-- Children of `e` matching a part, in child order. -/
def childMatches (e : Elem) (p : PathPart) : List Elem :=
  (e.children.enum.filter (fun ic => matchPart ic.2 (ic.1 + 1) p)).map Prod.snd

/-- Matching children of every candidate, in candidate order. -/
def collectChilds (p : PathPart) : List Elem → List Elem
  | [] => []
  | e :: rest => childMatches e p ++ collectChilds p rest

/-- Narrows a candidate set along the remaining parts of a path. -/
def resolveParts (cands : List Elem) : List PathPart → List Elem
  | [] => cands
  | p :: rest => resolveParts (collectChilds p cands) rest

/-- `document.querySelector` for the selector shapes the source produces.
The document root is the `body` element. -/
def querySel (doc : Elem) : Sel → Option Elem
  | .marker nodeId => firstElem doc (fun e => getAttr e "data-pb-node" = some nodeId)
  | .byId v => firstElem doc (fun e => getAttr e "id" = some v)
  | .byTestId v => firstElem doc (fun e => getAttr e "data-testid" = some v)
  | .byAria v => firstElem doc (fun e => getAttr e "aria-label" = some v)
  | .pathSel parts =>
    match parts with
    | [] => none
    | p :: rest => (resolveParts (if matchPart doc 1 p then [doc] else []) rest).head?
  | .emptySel => none

/-- Id of the element found by a selector, if any. -/
def querySelEid (doc : Elem) (sel : Sel) : Option Nat := (querySel doc sel).map (fun e => e.dta.eid)

/-! ## Extractor (`src/content/extractor.ts`)

Counters `nodeCounter`/`totalNodes` are threaded as explicit state.  The
source also stamps `data-pb-node` onto each kept live element while walking;
since nothing the walk reads depends on that attribute (skip tests, text,
classification and positional selectors never consult it), the embedding
records the stamps in the state and applies them to the document afterwards
(`applyStamps`), which produces the same final document. -/

def MAX_NODES : Nat := 150
def MAX_DEPTH : Nat := 6
def MAX_CHILDREN : Nat := 30
def TEXT_PREVIEW_LENGTH : Nat := 80

def SKIP_TAGS : List String := ["script", "style", "noscript", "template", "iframe"]

def AD_PATTERNS : List String :=
  ["ad-", "adsbygoogle", "cookie-banner", "consent",
   "ad_", "ads-", "advertisement", "cookie-consent",
   "gdpr", "cookie-notice"]

inductive NodeType where
  | heading | nav | sectionT | link | image | text | list | form | unknown
deriving Repr, DecidableEq

/-- Tag names are stored lower-case in the model (JS lower-cases `tagName`
at every use site). -/
def isHeadingTag (t : String) : Bool :=
  t = "h1" || t = "h2" || t = "h3" || t = "h4" || t = "h5" || t = "h6"

def headingLevelOf (t : String) : Option Nat :=
  if t = "h1" then some 1 else if t = "h2" then some 2 else if t = "h3" then some 3
  else if t = "h4" then some 4 else if t = "h5" then some 5 else if t = "h6" then some 6
  else none

def getTextPreview (e : Elem) : String :=
  if e.dta.tag = "img" || getAttr e "role" = some "img" then (getAttr e "alt").getD ""
  else
    let t := normalizeWS (textContent e)
    if strLen t > TEXT_PREVIEW_LENGTH then strTake t TEXT_PREVIEW_LENGTH ++ "..." else t

def classifyElement (e : Elem) : NodeType :=
  let tag := e.dta.tag
  let role := getAttr e "role"
  if isHeadingTag tag then .heading
  else if tag = "nav" || role = some "navigation" then .nav
  else if ["section", "article", "main", "aside"].contains tag
      || role = some "main" || role = some "region" then .sectionT
  else if tag = "a" && (getAttr e "href").isSome then .link
  else if ["img", "picture", "svg"].contains tag || role = some "img" then .image
  else if ["ul", "ol"].contains tag || role = some "list" then .list
  else if tag = "form" || role = some "form" then .form
  else if ["p", "span", "div"].contains tag && strLen (getTextPreview e) > 0 then .text
  else .unknown

def isHidden (e : Elem) : Bool :=
  (e.dta.offsetWidth = 0 && e.dta.offsetHeight = 0)
  || e.dta.computedDisplay = "none" || e.dta.computedVisibility = "hidden"

def isAdOrCookieBanner (e : Elem) : Bool :=
  let cn := strToLower ((getAttr e "class").getD "")
  let idv := strToLower ((getAttr e "id").getD "")
  let combined := cn ++ " " ++ idv
  AD_PATTERNS.any (fun p => strContains combined p)

def shouldSkipElement (e : Elem) : Bool :=
  SKIP_TAGS.contains e.dta.tag
  || (e.dta.tag = "svg" && getAttr e "role" ≠ some "img")
  || isHidden e || isAdOrCookieBanner e

/-- Positional part of a child: bare tag when it is the only child with that
tag, `tag:nth-child(i)` otherwise (`i` counts all siblings, 1-based). -/
def posPart (sibs : List Elem) (i : Nat) (c : Elem) : PathPart :=
  if (sibs.filter (fun s => s.dta.tag = c.dta.tag)).length = 1 then .part c.dta.tag none
  else .part c.dta.tag (some (i + 1))

/-- Part used by the full-`nth-child` fallback path. -/
def fullPart (i : Nat) (c : Elem) : PathPart := .part c.dta.tag (some (i + 1))

/-- `buildPositionalSelector` validated against the document, falling back to
`buildFullNthChildSelector` (the path arguments carry the climb already
accumulated top-down; sibling structure never changes during extraction). -/
def buildPositionalSelector (doc : Elem) (c : Elem) (posSel fullSel : Sel) : Sel :=
  if querySelEid doc posSel = some c.dta.eid then posSel else fullSel

/-- `generateSelector`: unique `#id`, then unique `[data-testid]`, then unique
`[aria-label]`, then the positional path. -/
def generateSelector (doc : Elem) (c : Elem) (posSel fullSel : Sel) : Sel :=
  let idv := (getAttr c "id").getD ""
  if idv ≠ "" && querySelEid doc (.byId idv) = some c.dta.eid then .byId idv
  else
    let tid := (getAttr c "data-testid").getD ""
    if tid ≠ "" && querySelEid doc (.byTestId tid) = some c.dta.eid then .byTestId tid
    else
      let aria := (getAttr c "aria-label").getD ""
      if aria ≠ "" && querySelEid doc (.byAria aria) = some c.dta.eid then .byAria aria
      else buildPositionalSelector doc c posSel fullSel

inductive SkeletonNode where
  | mk (id : String) (selector : Sel) (fallbackSelector : Option Sel) (typ : NodeType)
      (textPreview : String) (tag : String) (headingLevel : Option Nat)
      (href : Option String) (alt : Option String) (children : List SkeletonNode)
deriving Repr

def SkeletonNode.nid : SkeletonNode → String
  | .mk i _ _ _ _ _ _ _ _ _ => i

def SkeletonNode.selector : SkeletonNode → Sel
  | .mk _ s _ _ _ _ _ _ _ _ => s

def SkeletonNode.fallbackSelector : SkeletonNode → Option Sel
  | .mk _ _ f _ _ _ _ _ _ _ => f

def SkeletonNode.typ : SkeletonNode → NodeType
  | .mk _ _ _ t _ _ _ _ _ _ => t

def SkeletonNode.textPreview : SkeletonNode → String
  | .mk _ _ _ _ p _ _ _ _ _ => p

def SkeletonNode.tag : SkeletonNode → String
  | .mk _ _ _ _ _ t _ _ _ _ => t

def SkeletonNode.hrefOf : SkeletonNode → Option String
  | .mk _ _ _ _ _ _ _ h _ _ => h

def SkeletonNode.children : SkeletonNode → List SkeletonNode
  | .mk _ _ _ _ _ _ _ _ _ cs => cs

/-- Copy of a node with a replaced text preview (the only field
`deduplicateSiblings` rewrites). -/
def SkeletonNode.setPreview : SkeletonNode → String → SkeletonNode
  | .mk i s f t _ tg hl hr al cs, p => .mk i s f t p tg hl hr al cs

def areSimilarPreviews (a b : String) : Bool :=
  if a = b then true
  else if strLen a = 0 || strLen b = 0 then false
  else if 2 * min (strLen a) (strLen b) < max (strLen a) (strLen b) then false
  else
    let keep := min 20 (min (strLen a) (strLen b))
    strTake a keep = strTake b keep

/-- Run-grouping loop of `deduplicateSiblings`; `acc` holds the groups built
so far in reverse, the head being the `last` group the source inspects. -/
def dedupFold (acc : List (SkeletonNode × Nat)) : List SkeletonNode → List (SkeletonNode × Nat)
  | [] => acc.reverse
  | n :: rest =>
    match acc with
    | (g, cnt) :: accRest =>
      if g.typ = n.typ && g.children.isEmpty && n.children.isEmpty
          && areSimilarPreviews g.textPreview n.textPreview then
        dedupFold ((g, cnt + 1) :: accRest) rest
      else dedupFold ((n, 1) :: (g, cnt) :: accRest) rest
    | [] => dedupFold [(n, 1)] rest

def applyRepeat (gc : SkeletonNode × Nat) : SkeletonNode :=
  if gc.2 > 1 then
    gc.1.setPreview ("× repeated " ++ natToStr gc.2 ++ "x: " ++ gc.1.textPreview)
  else gc.1

def deduplicateSiblings (nodes : List SkeletonNode) : List SkeletonNode :=
  if nodes.length ≤ 1 then nodes else (dedupFold [] nodes).map applyRepeat

/-- Walk state: the two per-walk counters plus a log of the ids taken (in
assignment order) and of the `data-pb-node` stamps written to the live tree. -/
structure WalkSt where
  counter : Nat := 0
  total : Nat := 0
  assigned : List Nat := []
  stamps : List (Nat × Nat) := []
deriving Repr, DecidableEq

/-- JS `node-${nodeCounter++}` (destructuring keeps evaluated terms small). -/
def takeId : WalkSt → Nat × WalkSt
  | ⟨c, t, a, s⟩ => (c, ⟨c + 1, t, a ++ [c], s⟩)

/-- Records one `data-pb-node` stamp in the walk log. -/
def pushStamp (eid num : Nat) : WalkSt → WalkSt
  | ⟨c, t, a, s⟩ => ⟨c, t, a, s ++ [(eid, num)]⟩

/-- JS `totalNodes++`. -/
def bumpTotal : WalkSt → WalkSt
  | ⟨c, t, a, s⟩ => ⟨c, t + 1, a, s⟩

def mkNodeId (n : Nat) : String := "node-" ++ natToStr n

theorem mkNodeId_injective : Function.Injective mkNodeId := by
  intro m n h
  apply natToStr_injective
  have hd := congrArg String.data h
  simp only [mkNodeId, String.data_append] at hd
  exact congrArg ofChars (List.append_cancel_left hd)

def enforceChildLimit (children : List SkeletonNode) (st : WalkSt) :
    List SkeletonNode × WalkSt :=
  if children.length ≤ MAX_CHILDREN then (children, st)
  else
    let idp := takeId st
    (children.take 20
      ++ [SkeletonNode.mk (mkNodeId idp.1) Sel.emptySel none NodeType.text
            ("... (" ++ natToStr (children.length - 30) ++ " more items)") "synthetic"
            none none none []]
      ++ children.drop (children.length - 10),
     idp.2)

/-- `child.getAttribute("href") || undefined`. -/
def optHref (c : Elem) : Option String :=
  match getAttr c "href" with
  | some v => if v = "" then none else some v
  | none => none

mutual
/-- `walkDOM(el, depth)`: guard, then iterate the children of the walk source
(the open shadow root when present, the element otherwise). -/
def walkDOM (e : Elem) (depth : Nat) (doc : Elem) (anc ancFull : List PathPart)
    (st : WalkSt) : List SkeletonNode × WalkSt :=
  match e with
  | .mk d cs sh =>
    if depth > MAX_DEPTH || st.total ≥ MAX_NODES then ([], st)
    else if d.hasShadow then walkChildren sh sh 0 depth doc anc ancFull st
    else walkChildren cs cs 0 depth doc anc ancFull st

/-- Loop body of `walkDOM`; `sibs` is the full sibling list (for
`nth-child` positions), `rem` the yet-unvisited suffix at index `i`. -/
def walkChildren (sibs rem : List Elem) (i depth : Nat) (doc : Elem)
    (anc ancFull : List PathPart) (st : WalkSt) : List SkeletonNode × WalkSt :=
  match rem with
  | [] => ([], st)
  | c :: rest =>
    if st.total ≥ MAX_NODES then ([], st)
    else if shouldSkipElement c then walkChildren sibs rest (i + 1) depth doc anc ancFull st
    else
      let nodeType := classifyElement c
      let preview := getTextPreview c
      let part := posPart sibs i c
      let fpart := fullPart i c
      match walkDOM c (depth + 1) doc (anc ++ [part]) (ancFull ++ [fpart]) st with
      | (childNodes, st1) =>
        if preview = "" && childNodes.isEmpty then
          walkChildren sibs rest (i + 1) depth doc anc ancFull st1
        else
          match takeId st1 with
          | (num, stA) =>
            let st2 := pushStamp c.dta.eid num stA
            let nthChildPath :=
              generateSelector doc c (.pathSel (anc ++ [part])) (.pathSel (ancFull ++ [fpart]))
            let sel := Sel.marker (mkNodeId num)
            match enforceChildLimit (deduplicateSiblings childNodes) st2 with
            | (kids, st3) =>
              let node := SkeletonNode.mk (mkNodeId num) sel
                (if nthChildPath ≠ sel then some nthChildPath else none)
                nodeType preview c.dta.tag (headingLevelOf c.dta.tag)
                (if c.dta.tag = "a" then optHref c else none)
                (if c.dta.tag = "img" || getAttr c "role" = some "img"
                  then some ((getAttr c "alt").getD "") else none)
                kids
              match walkChildren sibs rest (i + 1) depth doc anc ancFull (bumpTotal st3) with
              | (moreNodes, st4) => (node :: moreNodes, st4)
end

structure PageSkeleton where
  url : String
  title : String
  metaDescription : String
  nodes : List SkeletonNode
  extractedAt : Nat

structure ExtractResult where
  skeleton : PageSkeleton
  finalSt : WalkSt
  stampedDoc : Elem

/-- Stale-stamp removal at the start of `extractSkeleton`. -/
def clearMarkers (doc : Elem) : Elem := mapAll (fun d => dDelAttr d "data-pb-node") doc

/-- Replays the recorded stamps onto the document. -/
def applyStamps (doc : Elem) (stamps : List (Nat × Nat)) : Elem :=
  stamps.foldl (fun dd p => setAttrById dd p.1 "data-pb-node" (mkNodeId p.2)) doc

/-- Anchor part for paths: the climb stops at `documentElement` and always
emits a bare `body` head for elements under `body`. -/
def bodyPart : PathPart := .part "body" none

/-- `extractSkeleton()`: counters reset, stale markers cleared, walk from the
body at depth 0, top-level sibling dedup.  `url`/`title`/`metaDescription`/
`now` stand for `window.location.href`, `document.title`, the meta tag and
`Date.now()`, which live outside the modelled tree. -/
def extractSkeleton (url title metaDescription : String) (now : Nat) (doc : Elem) :
    ExtractResult :=
  let cleared := clearMarkers doc
  let st0 : WalkSt := {}
  match walkDOM cleared 0 cleared [bodyPart] [bodyPart] st0 with
  | (nodes, stF) =>
    { skeleton :=
        { url := url, title := title, metaDescription := metaDescription,
          nodes := deduplicateSiblings nodes, extractedAt := now },
      finalSt := stF,
      stampedDoc := applyStamps cleared stF.stamps }

mutual
/-- Node count of a skeleton forest (`countNodes` of the source self-test). -/
def countNodes : List SkeletonNode → Nat
  | [] => 0
  | n :: rest => countNode n + countNodes rest

def countNode : SkeletonNode → Nat
  | .mk _ _ _ _ _ _ _ _ _ cs => 1 + countNodes cs
end

mutual
/-- Height of a skeleton forest: 0 for empty, 1 + children height per node. -/
def heightF : List SkeletonNode → Nat
  | [] => 0
  | n :: rest => max (heightN n) (heightF rest)

def heightN : SkeletonNode → Nat
  | .mk _ _ _ _ _ _ _ _ _ cs => 1 + heightF cs
end

mutual
/-- All node ids of a skeleton forest, in tree order. -/
def collectIdsF : List SkeletonNode → List String
  | [] => []
  | n :: rest => collectIdsN n ++ collectIdsF rest

def collectIdsN : SkeletonNode → List String
  | .mk i _ _ _ _ _ _ _ _ cs => i :: collectIdsF cs
end

/-! ## Structural lemmas about skeleton forests -/

theorem countNode_pos (n : SkeletonNode) : 1 ≤ countNode n := by
  match n with
  | .mk i s f t p tg hl hr al cs => simp [countNode]

theorem countNodes_append (l1 l2 : List SkeletonNode) :
    countNodes (l1 ++ l2) = countNodes l1 + countNodes l2 := by
  induction l1 with
  | nil => simp [countNodes]
  | cons n rest ih => simp [countNodes, ih]; omega

theorem countNodes_sublist {l1 l2 : List SkeletonNode} (h : List.Sublist l1 l2) :
    countNodes l1 ≤ countNodes l2 := by
  induction h with
  | slnil => exact Nat.le_refl _
  | cons n _ ih => simp only [countNodes]; omega
  | cons₂ n _ ih => simp only [countNodes]; omega

theorem heightF_append (l1 l2 : List SkeletonNode) :
    heightF (l1 ++ l2) = max (heightF l1) (heightF l2) := by
  induction l1 with
  | nil => simp [heightF]
  | cons n rest ih => simp [heightF, ih]; omega

theorem heightF_sublist {l1 l2 : List SkeletonNode} (h : List.Sublist l1 l2) :
    heightF l1 ≤ heightF l2 := by
  induction h with
  | slnil => exact Nat.le_refl _
  | cons n _ ih => simp only [heightF]; omega
  | cons₂ n _ ih => simp only [heightF]; omega

theorem collectIdsF_append (l1 l2 : List SkeletonNode) :
    collectIdsF (l1 ++ l2) = collectIdsF l1 ++ collectIdsF l2 := by
  induction l1 with
  | nil => simp [collectIdsF]
  | cons n rest ih => simp [collectIdsF, ih]

theorem collectIdsF_sublist {l1 l2 : List SkeletonNode} (h : List.Sublist l1 l2) :
    List.Sublist (collectIdsF l1) (collectIdsF l2) := by
  induction h with
  | slnil => exact List.Sublist.refl _
  | cons n _ ih =>
    simp only [collectIdsF]
    exact ih.trans (List.sublist_append_right _ _)
  | cons₂ n _ ih =>
    simp only [collectIdsF]
    exact List.Sublist.append (List.Sublist.refl _) ih

theorem countNode_setPreview (n : SkeletonNode) (p : String) :
    countNode (n.setPreview p) = countNode n := by
  match n with
  | .mk i s f t q tg hl hr al cs => simp [SkeletonNode.setPreview, countNode]

theorem countNode_applyRepeat (gc : SkeletonNode × Nat) :
    countNode (applyRepeat gc) = countNode gc.1 := by
  unfold applyRepeat
  split
  · exact countNode_setPreview _ _
  · rfl

theorem heightN_setPreview (n : SkeletonNode) (p : String) :
    heightN (n.setPreview p) = heightN n := by
  match n with
  | .mk i s f t q tg hl hr al cs => simp [SkeletonNode.setPreview, heightN]

theorem heightN_applyRepeat (gc : SkeletonNode × Nat) :
    heightN (applyRepeat gc) = heightN gc.1 := by
  unfold applyRepeat
  split
  · exact heightN_setPreview _ _
  · rfl

theorem collectIdsN_setPreview (n : SkeletonNode) (p : String) :
    collectIdsN (n.setPreview p) = collectIdsN n := by
  match n with
  | .mk i s f t q tg hl hr al cs => simp [SkeletonNode.setPreview, collectIdsN]

theorem collectIdsN_applyRepeat (gc : SkeletonNode × Nat) :
    collectIdsN (applyRepeat gc) = collectIdsN gc.1 := by
  unfold applyRepeat
  split
  · exact collectIdsN_setPreview _ _
  · rfl

/-- The first components produced by the grouping loop are the pending groups
(reversed) followed by a sublist of the remaining input: merging keeps the
group's representative node, pushing adds the current input node. -/
theorem dedupFold_fst : ∀ (l : List SkeletonNode) (acc : List (SkeletonNode × Nat)),
    ∃ k, List.Sublist k l ∧ (dedupFold acc l).map Prod.fst = (acc.map Prod.fst).reverse ++ k := by
  intro l
  induction l with
  | nil =>
    intro acc
    exact ⟨[], List.Sublist.refl _, by simp [dedupFold]⟩
  | cons n rest ih =>
    intro acc
    match acc with
    | [] =>
      obtain ⟨k, hk, he⟩ := ih [(n, 1)]
      exact ⟨n :: k, List.Sublist.cons₂ n hk, by simpa [dedupFold] using he⟩
    | (g, cnt) :: accRest =>
      rw [dedupFold]
      split
      · obtain ⟨k, hk, he⟩ := ih ((g, cnt + 1) :: accRest)
        refine ⟨k, List.Sublist.cons n hk, ?_⟩
        rw [he]
        simp
      · obtain ⟨k, hk, he⟩ := ih ((n, 1) :: (g, cnt) :: accRest)
        refine ⟨n :: k, List.Sublist.cons₂ n hk, ?_⟩
        rw [he]
        simp

/-- Representative nodes of `deduplicateSiblings nodes` differ from a sublist
of `nodes` only in their text previews, so every aggregate that ignores the
preview is dominated by the input. -/
theorem countNodes_dedup_le (nodes : List SkeletonNode) :
    countNodes (deduplicateSiblings nodes) ≤ countNodes nodes := by
  unfold deduplicateSiblings
  split
  · exact Nat.le_refl _
  · obtain ⟨k, hk, he⟩ := dedupFold_fst nodes []
    have h1 : countNodes ((dedupFold [] nodes).map applyRepeat)
        = countNodes ((dedupFold [] nodes).map Prod.fst) := by
      induction dedupFold [] nodes with
      | nil => rfl
      | cons gc rest ih =>
        simp only [List.map_cons, countNodes, countNode_applyRepeat, ih]
    rw [h1, he]
    simpa using countNodes_sublist hk

theorem heightF_map_fst_eq (gs : List (SkeletonNode × Nat)) :
    heightF (gs.map applyRepeat) = heightF (gs.map Prod.fst) := by
  induction gs with
  | nil => rfl
  | cons gc rest ih => simp only [List.map_cons, heightF, heightN_applyRepeat, ih]

theorem heightF_dedup_le (nodes : List SkeletonNode) :
    heightF (deduplicateSiblings nodes) ≤ heightF nodes := by
  unfold deduplicateSiblings
  split
  · exact Nat.le_refl _
  · obtain ⟨k, hk, he⟩ := dedupFold_fst nodes []
    rw [heightF_map_fst_eq, he]
    simpa using heightF_sublist hk

theorem collectIdsF_map_fst_eq (gs : List (SkeletonNode × Nat)) :
    collectIdsF (gs.map applyRepeat) = collectIdsF (gs.map Prod.fst) := by
  induction gs with
  | nil => rfl
  | cons gc rest ih => simp only [List.map_cons, collectIdsF, collectIdsN_applyRepeat, ih]

theorem collectIdsF_dedup_sublist (nodes : List SkeletonNode) :
    List.Sublist (collectIdsF (deduplicateSiblings nodes)) (collectIdsF nodes) := by
  unfold deduplicateSiblings
  split
  · exact List.Sublist.refl _
  · obtain ⟨k, hk, he⟩ := dedupFold_fst nodes []
    rw [collectIdsF_map_fst_eq, he]
    simpa using collectIdsF_sublist hk

theorem countNodes_ge_length (l : List SkeletonNode) : l.length ≤ countNodes l := by
  induction l with
  | nil => simp [countNodes]
  | cons n rest ih =>
    simp only [countNodes, List.length_cons]
    have := countNode_pos n
    omega

theorem heightN_pos (n : SkeletonNode) : 1 ≤ heightN n := by
  match n with
  | .mk i s f t p tg hl hr al cs => simp [heightN]

/-- Splitting of a long child list around its dropped middle segment. -/
theorem list_split_middle (cs : List SkeletonNode) (h : 30 < cs.length) :
    cs = cs.take 20 ++ ((cs.drop 20).take (cs.length - 30) ++ cs.drop (cs.length - 10)) := by
  have h1 : cs.drop (cs.length - 10) = (cs.drop 20).drop (cs.length - 30) := by
    rw [List.drop_drop]
    congr 1
    omega
  rw [h1, List.take_append_drop, List.take_append_drop]

theorem countNodes_enforce_le (cs : List SkeletonNode) (st : WalkSt) :
    countNodes (enforceChildLimit cs st).1 ≤ countNodes cs := by
  unfold enforceChildLimit
  split
  · exact Nat.le_refl _
  · next h =>
    have h30 : 30 < cs.length := by simpa [MAX_CHILDREN] using h
    have hdec := list_split_middle cs h30
    have hmid : 1 ≤ countNodes ((cs.drop 20).take (cs.length - 30)) := by
      have hlen : ((cs.drop 20).take (cs.length - 30)).length = cs.length - 30 := by
        rw [List.length_take, List.length_drop]
        omega
      have := countNodes_ge_length ((cs.drop 20).take (cs.length - 30))
      omega
    have htot : countNodes cs
        = countNodes (cs.take 20) + countNodes ((cs.drop 20).take (cs.length - 30))
          + countNodes (cs.drop (cs.length - 10)) := by
      conv_lhs => rw [hdec]
      rw [countNodes_append, countNodes_append]
      omega
    simp only [countNodes_append]
    simp only [countNodes, countNode]
    omega

theorem heightF_enforce_le (cs : List SkeletonNode) (st : WalkSt) :
    heightF (enforceChildLimit cs st).1 ≤ heightF cs := by
  unfold enforceChildLimit
  split
  · exact Nat.le_refl _
  · next h =>
    have h30 : 30 < cs.length := by simpa [MAX_CHILDREN] using h
    obtain ⟨n0, rest0, he⟩ : ∃ n0 rest0, cs = n0 :: rest0 := by
      match cs, h30 with
      | n0 :: rest0, _ => exact ⟨n0, rest0, rfl⟩
    have hcs1 : 1 ≤ heightF cs := by
      rw [he]
      simp only [heightF]
      have := heightN_pos n0
      omega
    have htk := heightF_sublist (List.take_sublist 20 cs)
    have hdr := heightF_sublist (List.drop_sublist (cs.length - 10) cs)
    simp only [heightF_append]
    simp only [heightF, heightN]
    omega

/-- Claim C3 — `enforceChildLimit`: a list within the fan-out cap is returned
unchanged; a list beyond the cap becomes exactly `MAX_CHILDREN + 1 = 31`
entries — a 20-element head slice, one synthetic text leaf whose preview
reports the `length - 30` omitted items, and a 10-element tail slice. -/
theorem C3_enforceChildLimit_cap (cs : List SkeletonNode) (st : WalkSt) :
    (cs.length ≤ MAX_CHILDREN → enforceChildLimit cs st = (cs, st)) ∧
    (MAX_CHILDREN < cs.length →
      (enforceChildLimit cs st).1.length = MAX_CHILDREN + 1 ∧
      (enforceChildLimit cs st).1
        = cs.take 20
            ++ [SkeletonNode.mk (mkNodeId st.counter) Sel.emptySel none NodeType.text
                  ("... (" ++ natToStr (cs.length - 30) ++ " more items)") "synthetic"
                  none none none []]
            ++ cs.drop (cs.length - 10)) := by
  constructor
  · intro hle
    unfold enforceChildLimit
    rw [if_pos hle]
  · intro hgt
    have hne : ¬ cs.length ≤ MAX_CHILDREN := by omega
    constructor
    · unfold enforceChildLimit
      rw [if_neg hne]
      simp only [List.length_append, List.length_take, List.length_drop, List.length_cons,
        List.length_nil]
      simp only [MAX_CHILDREN] at hgt ⊢
      omega
    · unfold enforceChildLimit
      rw [if_neg hne]
      rfl

@[simp] theorem takeId_fst (st : WalkSt) : (takeId st).1 = st.counter := by
  cases st; rfl

@[simp] theorem takeId_total (st : WalkSt) : (takeId st).2.total = st.total := by
  cases st; rfl

@[simp] theorem takeId_counter (st : WalkSt) : (takeId st).2.counter = st.counter + 1 := by
  cases st; rfl

@[simp] theorem takeId_assigned (st : WalkSt) :
    (takeId st).2.assigned = st.assigned ++ [st.counter] := by
  cases st; rfl

@[simp] theorem takeId_stamps (st : WalkSt) : (takeId st).2.stamps = st.stamps := by
  cases st; rfl

@[simp] theorem pushStamp_total (eid num : Nat) (st : WalkSt) :
    (pushStamp eid num st).total = st.total := by
  cases st; rfl

@[simp] theorem pushStamp_counter (eid num : Nat) (st : WalkSt) :
    (pushStamp eid num st).counter = st.counter := by
  cases st; rfl

@[simp] theorem pushStamp_assigned (eid num : Nat) (st : WalkSt) :
    (pushStamp eid num st).assigned = st.assigned := by
  cases st; rfl

@[simp] theorem pushStamp_stamps (eid num : Nat) (st : WalkSt) :
    (pushStamp eid num st).stamps = st.stamps ++ [(eid, num)] := by
  cases st; rfl

@[simp] theorem bumpTotal_total (st : WalkSt) : (bumpTotal st).total = st.total + 1 := by
  cases st; rfl

@[simp] theorem bumpTotal_counter (st : WalkSt) : (bumpTotal st).counter = st.counter := by
  cases st; rfl

@[simp] theorem bumpTotal_assigned (st : WalkSt) : (bumpTotal st).assigned = st.assigned := by
  cases st; rfl

@[simp] theorem bumpTotal_stamps (st : WalkSt) : (bumpTotal st).stamps = st.stamps := by
  cases st; rfl

theorem enforce_total (cs : List SkeletonNode) (st : WalkSt) :
    (enforceChildLimit cs st).2.total = st.total := by
  unfold enforceChildLimit
  split
  · rfl
  · simp

theorem enforce_counter_le (cs : List SkeletonNode) (st : WalkSt) :
    st.counter ≤ (enforceChildLimit cs st).2.counter := by
  unfold enforceChildLimit
  split
  · exact Nat.le_refl _
  · simp

theorem walkDOM_depth_gt (e : Elem) (depth : Nat) (doc : Elem)
    (anc ancFull : List PathPart) (st : WalkSt) (h : MAX_DEPTH < depth) :
    walkDOM e depth doc anc ancFull st = ([], st) := by
  match e with
  | .mk d cs sh =>
    rw [walkDOM]
    simp [Nat.lt_iff_add_one_le.mp h, show depth > MAX_DEPTH by omega]

mutual
theorem walkDOM_total_mono (e : Elem) (depth : Nat) (doc : Elem)
    (anc ancFull : List PathPart) (st : WalkSt) :
    st.total ≤ (walkDOM e depth doc anc ancFull st).2.total := by
  match e with
  | .mk d cs sh =>
    rw [walkDOM]
    split
    · exact Nat.le_refl _
    · split
      · exact walkChildren_total_mono sh sh 0 depth doc anc ancFull st
      · exact walkChildren_total_mono cs cs 0 depth doc anc ancFull st

theorem walkChildren_total_mono (sibs rem : List Elem) (i depth : Nat) (doc : Elem)
    (anc ancFull : List PathPart) (st : WalkSt) :
    st.total ≤ (walkChildren sibs rem i depth doc anc ancFull st).2.total := by
  match rem with
  | [] => rw [walkChildren]
  | c :: rest =>
    rw [walkChildren]
    split
    · exact Nat.le_refl _
    · split
      · exact walkChildren_total_mono sibs rest (i + 1) depth doc anc ancFull st
      · have h1 := walkDOM_total_mono c (depth + 1) doc
          (anc ++ [posPart sibs i c]) (ancFull ++ [fullPart i c]) st
        rcases hw : walkDOM c (depth + 1) doc
          (anc ++ [posPart sibs i c]) (ancFull ++ [fullPart i c]) st with ⟨childNodes, st1⟩
        rw [hw] at h1
        dsimp only at h1
        simp only [hw]
        split
        · have h2 := walkChildren_total_mono sibs rest (i + 1) depth doc anc ancFull st1
          omega
        · rcases he : enforceChildLimit (deduplicateSiblings childNodes)
            (pushStamp c.dta.eid (takeId st1).1 (takeId st1).2) with ⟨kids, st3⟩
          have h3 : st3.total = st1.total := by
            have := enforce_total (deduplicateSiblings childNodes)
              (pushStamp c.dta.eid (takeId st1).1 (takeId st1).2)
            rw [he] at this
            simpa using this
          have h4 := walkChildren_total_mono sibs rest (i + 1) depth doc anc ancFull
            (bumpTotal st3)
          rcases hm : walkChildren sibs rest (i + 1) depth doc anc ancFull
            (bumpTotal st3) with ⟨moreNodes, st4⟩
          rw [hm] at h4
          simp only [bumpTotal_total] at h4
          simp only [he, hm]
          omega
end

mutual
/-- Budget overshoot is bounded: each recursion level still in flight when the
budget fills can append at most one more node, so `totalNodes` never exceeds
`MAX_NODES + (MAX_DEPTH - depth)` (or its entry value, whichever is larger). -/
theorem walkDOM_total_bound (e : Elem) (depth : Nat) (doc : Elem)
    (anc ancFull : List PathPart) (st : WalkSt) :
    (walkDOM e depth doc anc ancFull st).2.total
      ≤ max st.total (MAX_NODES + (MAX_DEPTH - depth)) := by
  match e with
  | .mk d cs sh =>
    rw [walkDOM]
    split
    · exact Nat.le_max_left _ _
    · next hguard =>
      have hd : depth ≤ MAX_DEPTH := by
        rcases le_or_lt depth MAX_DEPTH with h | h
        · exact h
        · exact absurd (by simp [h]) hguard
      split
      · exact walkChildren_total_bound sh sh 0 depth doc anc ancFull st hd
      · exact walkChildren_total_bound cs cs 0 depth doc anc ancFull st hd

theorem walkChildren_total_bound (sibs rem : List Elem) (i depth : Nat) (doc : Elem)
    (anc ancFull : List PathPart) (st : WalkSt) (hd : depth ≤ MAX_DEPTH) :
    (walkChildren sibs rem i depth doc anc ancFull st).2.total
      ≤ max st.total (MAX_NODES + (MAX_DEPTH - depth)) := by
  match rem with
  | [] =>
    rw [walkChildren]
    exact Nat.le_max_left _ _
  | c :: rest =>
    rw [walkChildren]
    split
    · exact Nat.le_max_left _ _
    · next hbudget =>
      have hst : st.total < MAX_NODES := by
        rcases le_or_lt MAX_NODES st.total with h | h
        · exact absurd (by simp [h]) hbudget
        · exact h
      split
      · exact walkChildren_total_bound sibs rest (i + 1) depth doc anc ancFull st hd
      · rcases hw : walkDOM c (depth + 1) doc
          (anc ++ [posPart sibs i c]) (ancFull ++ [fullPart i c]) st with ⟨childNodes, st1⟩
        have hst1 : st1.total ≤ max st.total (MAX_NODES + (MAX_DEPTH - (depth + 1))) := by
          have h1 := walkDOM_total_bound c (depth + 1) doc
            (anc ++ [posPart sibs i c]) (ancFull ++ [fullPart i c]) st
          rw [hw] at h1
          exact h1
        have hst1eq : MAX_DEPTH < depth + 1 → st1 = st := by
          intro hlt
          have := walkDOM_depth_gt c (depth + 1) doc
            (anc ++ [posPart sibs i c]) (ancFull ++ [fullPart i c]) st hlt
          rw [hw] at this
          exact (Prod.mk.injEq _ _ _ _).mp this |>.2
        simp only [hw]
        split
        · have h2 := walkChildren_total_bound sibs rest (i + 1) depth doc anc ancFull st1 hd
          have hM : MAX_NODES = 150 := rfl
          have hD : MAX_DEPTH = 6 := rfl
          by_cases hdep : depth = MAX_DEPTH
          · have := hst1eq (by omega)
            subst this
            omega
          · omega
        · rcases he : enforceChildLimit (deduplicateSiblings childNodes)
            (pushStamp c.dta.eid (takeId st1).1 (takeId st1).2) with ⟨kids, st3⟩
          have h3 : st3.total = st1.total := by
            have := enforce_total (deduplicateSiblings childNodes)
              (pushStamp c.dta.eid (takeId st1).1 (takeId st1).2)
            rw [he] at this
            simpa using this
          rcases hm : walkChildren sibs rest (i + 1) depth doc anc ancFull
            (bumpTotal st3) with ⟨moreNodes, st4⟩
          have h4 : st4.total ≤ max (st1.total + 1) (MAX_NODES + (MAX_DEPTH - depth)) := by
            have := walkChildren_total_bound sibs rest (i + 1) depth doc anc ancFull
              (bumpTotal st3) hd
            rw [hm] at this
            simpa [h3] using this
          simp only [he, hm]
          have hM : MAX_NODES = 150 := rfl
          have hD : MAX_DEPTH = 6 := rfl
          by_cases hdep : depth = MAX_DEPTH
          · have := hst1eq (by omega)
            subst this
            omega
          · omega
end

mutual
/-- Every emitted node was paid for by a `totalNodes` increment. -/
theorem walkDOM_count (e : Elem) (depth : Nat) (doc : Elem)
    (anc ancFull : List PathPart) (st : WalkSt) :
    countNodes (walkDOM e depth doc anc ancFull st).1 + st.total
      ≤ (walkDOM e depth doc anc ancFull st).2.total := by
  match e with
  | .mk d cs sh =>
    rw [walkDOM]
    split
    · simp [countNodes]
    · split
      · exact walkChildren_count sh sh 0 depth doc anc ancFull st
      · exact walkChildren_count cs cs 0 depth doc anc ancFull st

theorem walkChildren_count (sibs rem : List Elem) (i depth : Nat) (doc : Elem)
    (anc ancFull : List PathPart) (st : WalkSt) :
    countNodes (walkChildren sibs rem i depth doc anc ancFull st).1 + st.total
      ≤ (walkChildren sibs rem i depth doc anc ancFull st).2.total := by
  match rem with
  | [] =>
    rw [walkChildren]
    simp [countNodes]
  | c :: rest =>
    rw [walkChildren]
    split
    · simp [countNodes]
    · split
      · exact walkChildren_count sibs rest (i + 1) depth doc anc ancFull st
      · rcases hw : walkDOM c (depth + 1) doc
          (anc ++ [posPart sibs i c]) (ancFull ++ [fullPart i c]) st with ⟨childNodes, st1⟩
        have h1 : countNodes childNodes + st.total ≤ st1.total := by
          have := walkDOM_count c (depth + 1) doc
            (anc ++ [posPart sibs i c]) (ancFull ++ [fullPart i c]) st
          rw [hw] at this
          exact this
        simp only [hw]
        split
        · have h2 := walkChildren_count sibs rest (i + 1) depth doc anc ancFull st1
          have h0 := walkDOM_total_mono c (depth + 1) doc
            (anc ++ [posPart sibs i c]) (ancFull ++ [fullPart i c]) st
          rw [hw] at h0
          dsimp only at h0
          omega
        · rcases he : enforceChildLimit (deduplicateSiblings childNodes)
            (pushStamp c.dta.eid (takeId st1).1 (takeId st1).2) with ⟨kids, st3⟩
          have hkc : countNodes kids ≤ countNodes childNodes := by
            have ha := countNodes_enforce_le (deduplicateSiblings childNodes)
              (pushStamp c.dta.eid (takeId st1).1 (takeId st1).2)
            rw [he] at ha
            exact le_trans ha (countNodes_dedup_le childNodes)
          have h3 : st3.total = st1.total := by
            have := enforce_total (deduplicateSiblings childNodes)
              (pushStamp c.dta.eid (takeId st1).1 (takeId st1).2)
            rw [he] at this
            simpa using this
          rcases hm : walkChildren sibs rest (i + 1) depth doc anc ancFull
            (bumpTotal st3) with ⟨moreNodes, st4⟩
          have h4 : countNodes moreNodes + (st1.total + 1) ≤ st4.total := by
            have := walkChildren_count sibs rest (i + 1) depth doc anc ancFull (bumpTotal st3)
            rw [hm] at this
            simpa [h3] using this
          simp only [he, hm, countNodes, countNode]
          omega
end

mutual
/-- No node is emitted below the depth cut-off: the forest height is bounded
by the remaining depth budget. -/
theorem walkDOM_height (e : Elem) (depth : Nat) (doc : Elem)
    (anc ancFull : List PathPart) (st : WalkSt) :
    heightF (walkDOM e depth doc anc ancFull st).1 ≤ (MAX_DEPTH + 1) - depth := by
  match e with
  | .mk d cs sh =>
    rw [walkDOM]
    split
    · simp [heightF]
    · next hguard =>
      have hd : depth ≤ MAX_DEPTH := by
        rcases le_or_lt depth MAX_DEPTH with h | h
        · exact h
        · exact absurd (by simp [h]) hguard
      split
      · exact walkChildren_height sh sh 0 depth doc anc ancFull st hd
      · exact walkChildren_height cs cs 0 depth doc anc ancFull st hd

theorem walkChildren_height (sibs rem : List Elem) (i depth : Nat) (doc : Elem)
    (anc ancFull : List PathPart) (st : WalkSt) (hd : depth ≤ MAX_DEPTH) :
    heightF (walkChildren sibs rem i depth doc anc ancFull st).1
      ≤ (MAX_DEPTH + 1) - depth := by
  match rem with
  | [] =>
    rw [walkChildren]
    simp [heightF]
  | c :: rest =>
    rw [walkChildren]
    split
    · simp [heightF]
    · split
      · exact walkChildren_height sibs rest (i + 1) depth doc anc ancFull st hd
      · rcases hw : walkDOM c (depth + 1) doc
          (anc ++ [posPart sibs i c]) (ancFull ++ [fullPart i c]) st with ⟨childNodes, st1⟩
        have h1 : heightF childNodes ≤ (MAX_DEPTH + 1) - (depth + 1) := by
          have := walkDOM_height c (depth + 1) doc
            (anc ++ [posPart sibs i c]) (ancFull ++ [fullPart i c]) st
          rw [hw] at this
          exact this
        simp only [hw]
        split
        · exact walkChildren_height sibs rest (i + 1) depth doc anc ancFull st1 hd
        · rcases he : enforceChildLimit (deduplicateSiblings childNodes)
            (pushStamp c.dta.eid (takeId st1).1 (takeId st1).2) with ⟨kids, st3⟩
          have hkh : heightF kids ≤ heightF childNodes := by
            have ha := heightF_enforce_le (deduplicateSiblings childNodes)
              (pushStamp c.dta.eid (takeId st1).1 (takeId st1).2)
            rw [he] at ha
            exact le_trans ha (heightF_dedup_le childNodes)
          rcases hm : walkChildren sibs rest (i + 1) depth doc anc ancFull
            (bumpTotal st3) with ⟨moreNodes, st4⟩
          have h4 : heightF moreNodes ≤ (MAX_DEPTH + 1) - depth := by
            have := walkChildren_height sibs rest (i + 1) depth doc anc ancFull
              (bumpTotal st3) hd
            rw [hm] at this
            exact this
          simp only [he, hm, heightF, heightN]
          have hD : MAX_DEPTH = 6 := rfl
          omega
end

/-- Claim C2 (amended) — bounds actually enforced by `extractSkeleton`: the
snapshot never exceeds `MAX_NODES + MAX_DEPTH` nodes in total (the budget can
be overshot by at most one node per recursion level still active when the cap
fills, as `C2_counterexample` shows), and no node lies deeper than
`MAX_DEPTH` (top-level nodes at depth 0, so the forest height is at most
`MAX_DEPTH + 1`). -/
theorem C2_extractSkeleton_bounds (url title metaDescription : String) (now : Nat)
    (doc : Elem) :
    countNodes (extractSkeleton url title metaDescription now doc).skeleton.nodes
        ≤ MAX_NODES + MAX_DEPTH ∧
    heightF (extractSkeleton url title metaDescription now doc).skeleton.nodes
        ≤ MAX_DEPTH + 1 := by
  unfold extractSkeleton
  rcases hw : walkDOM (clearMarkers doc) 0 (clearMarkers doc) [bodyPart] [bodyPart] {}
    with ⟨nodes, stF⟩
  simp only [hw]
  constructor
  · have h1 := walkDOM_count (clearMarkers doc) 0 (clearMarkers doc) [bodyPart] [bodyPart] {}
    have h2 := walkDOM_total_bound (clearMarkers doc) 0 (clearMarkers doc)
      [bodyPart] [bodyPart] {}
    rw [hw] at h1 h2
    have h3 := countNodes_dedup_le nodes
    have h0 : (WalkSt.total {}) = 0 := rfl
    dsimp only at h1 h2 ⊢
    omega
  · have h1 := walkDOM_height (clearMarkers doc) 0 (clearMarkers doc) [bodyPart] [bodyPart] {}
    rw [hw] at h1
    have h3 := heightF_dedup_le nodes
    dsimp only at h1 ⊢
    omega

/-! ## Id-assignment machinery for C9 -/

/-- All ids of a skeleton forest are rendered counter values inside `[c0, c1)`. -/
def IdSpan (l : List SkeletonNode) (c0 c1 : Nat) : Prop :=
  ∀ s ∈ collectIdsF l, ∃ n, s = mkNodeId n ∧ c0 ≤ n ∧ n < c1

theorem IdSpan_weaken {l : List SkeletonNode} {c0 c1 c0' c1' : Nat}
    (h : IdSpan l c0 c1) (h0 : c0' ≤ c0) (h1 : c1 ≤ c1') : IdSpan l c0' c1' := by
  intro s hs
  obtain ⟨n, hn, ha, hb⟩ := h s hs
  exact ⟨n, hn, by omega, by omega⟩

theorem IdSpan_of_sublist {l l' : List SkeletonNode} {c0 c1 : Nat}
    (hsub : List.Sublist (collectIdsF l') (collectIdsF l)) (h : IdSpan l c0 c1) :
    IdSpan l' c0 c1 := fun s hs => h s (hsub.subset hs)

theorem nodup_append_disjoint {l1 l2 : List String}
    (h1 : l1.Nodup) (h2 : l2.Nodup) (hd : ∀ s ∈ l1, s ∉ l2) : (l1 ++ l2).Nodup :=
  List.Nodup.append h1 h2 hd

/-- Sliced head and tail of a long child list form a sublist of it. -/
theorem take_drop_sublist (cs : List SkeletonNode) (h : 30 < cs.length) :
    List.Sublist (cs.take 20 ++ cs.drop (cs.length - 10)) cs := by
  conv_rhs => rw [list_split_middle cs h]
  exact List.Sublist.append_left (List.sublist_append_right _ _) _

/-- Every id of the fan-out-capped list is an input id or the fresh synthetic
id `st.counter` (and in the latter case the counter advanced by one). -/
theorem enforce_ids_mem (cs : List SkeletonNode) (st : WalkSt) :
    ∀ s ∈ collectIdsF (enforceChildLimit cs st).1,
      s ∈ collectIdsF cs
        ∨ (s = mkNodeId st.counter
            ∧ (enforceChildLimit cs st).2.counter = st.counter + 1) := by
  unfold enforceChildLimit
  split
  · intro s hs
    exact Or.inl hs
  · next h =>
    intro s hs
    rw [collectIdsF_append, collectIdsF_append] at hs
    rcases List.mem_append.mp hs with hs12 | hs4
    · rcases List.mem_append.mp hs12 with hs1 | hs3
      · exact Or.inl ((collectIdsF_sublist (List.take_sublist 20 cs)).subset hs1)
      · have hs3' : s = mkNodeId (takeId st).1 := by
          simpa [collectIdsF, collectIdsN] using hs3
        exact Or.inr ⟨by simpa using hs3', by simp⟩
    · exact Or.inl ((collectIdsF_sublist (List.drop_sublist _ cs)).subset hs4)

theorem enforce_ids_nodup (cs : List SkeletonNode) (st : WalkSt)
    (hnd : (collectIdsF cs).Nodup)
    (hfresh : mkNodeId st.counter ∉ collectIdsF cs) :
    (collectIdsF (enforceChildLimit cs st).1).Nodup := by
  unfold enforceChildLimit
  split
  · exact hnd
  · next h =>
    have h30 : 30 < cs.length := by simpa [MAX_CHILDREN] using h
    have hsub := collectIdsF_sublist (take_drop_sublist cs h30)
    rw [collectIdsF_append] at hsub
    have hndsub : (collectIdsF (cs.take 20) ++ collectIdsF (cs.drop (cs.length - 10))).Nodup :=
      hsub.nodup hnd
    rw [collectIdsF_append, collectIdsF_append]
    have hmid : collectIdsF [SkeletonNode.mk (mkNodeId (takeId st).1) Sel.emptySel none
        NodeType.text ("... (" ++ natToStr (cs.length - 30) ++ " more items)") "synthetic"
        none none none []] = [mkNodeId st.counter] := by
      simp [collectIdsF, collectIdsN]
    rw [hmid]
    rw [List.append_assoc, List.singleton_append, List.nodup_middle]
    refine List.nodup_cons.mpr ⟨?_, hndsub⟩
    intro hmem
    rcases List.mem_append.mp hmem with hm | hm
    · exact hfresh ((collectIdsF_sublist (List.take_sublist 20 cs)).subset hm)
    · exact hfresh ((collectIdsF_sublist (List.drop_sublist _ cs)).subset hm)

theorem enforce_assigned (cs : List SkeletonNode) (st : WalkSt)
    (h : st.assigned = List.range st.counter) :
    (enforceChildLimit cs st).2.assigned
      = List.range (enforceChildLimit cs st).2.counter := by
  unfold enforceChildLimit
  split
  · exact h
  · simp [h, List.range_succ]

mutual
/-- The id counter only grows along the walk, the emitted ids are exactly
counter values taken inside the call, and they are pairwise distinct. -/
theorem walkDOM_ids (e : Elem) (depth : Nat) (doc : Elem)
    (anc ancFull : List PathPart) (st : WalkSt) :
    st.counter ≤ (walkDOM e depth doc anc ancFull st).2.counter ∧
    IdSpan (walkDOM e depth doc anc ancFull st).1 st.counter
      (walkDOM e depth doc anc ancFull st).2.counter ∧
    (collectIdsF (walkDOM e depth doc anc ancFull st).1).Nodup := by
  match e with
  | .mk d cs sh =>
    rw [walkDOM]
    split
    · exact ⟨Nat.le_refl _, by intro s hs; simp [collectIdsF] at hs, by simp [collectIdsF]⟩
    · split
      · exact walkChildren_ids sh sh 0 depth doc anc ancFull st
      · exact walkChildren_ids cs cs 0 depth doc anc ancFull st

theorem walkChildren_ids (sibs rem : List Elem) (i depth : Nat) (doc : Elem)
    (anc ancFull : List PathPart) (st : WalkSt) :
    st.counter ≤ (walkChildren sibs rem i depth doc anc ancFull st).2.counter ∧
    IdSpan (walkChildren sibs rem i depth doc anc ancFull st).1 st.counter
      (walkChildren sibs rem i depth doc anc ancFull st).2.counter ∧
    (collectIdsF (walkChildren sibs rem i depth doc anc ancFull st).1).Nodup := by
  match rem with
  | [] =>
    rw [walkChildren]
    exact ⟨Nat.le_refl _, by intro s hs; simp [collectIdsF] at hs, by simp [collectIdsF]⟩
  | c :: rest =>
    rw [walkChildren]
    split
    · exact ⟨Nat.le_refl _, by intro s hs; simp [collectIdsF] at hs, by simp [collectIdsF]⟩
    · split
      · exact walkChildren_ids sibs rest (i + 1) depth doc anc ancFull st
      · rcases hw : walkDOM c (depth + 1) doc
          (anc ++ [posPart sibs i c]) (ancFull ++ [fullPart i c]) st with ⟨childNodes, st1⟩
        obtain ⟨hWc, hWs, hWn⟩ := by
          have := walkDOM_ids c (depth + 1) doc
            (anc ++ [posPart sibs i c]) (ancFull ++ [fullPart i c]) st
          rw [hw] at this
          dsimp only at this
          exact this
        simp only [hw]
        split
        · obtain ⟨hc, hs, hn⟩ := walkChildren_ids sibs rest (i + 1) depth doc anc ancFull st1
          exact ⟨by omega, IdSpan_weaken hs hWc (Nat.le_refl _), hn⟩
        · rcases he : enforceChildLimit (deduplicateSiblings childNodes)
            (pushStamp c.dta.eid (takeId st1).1 (takeId st1).2) with ⟨kids, st3⟩
          have hst2c : (pushStamp c.dta.eid (takeId st1).1 (takeId st1).2).counter
              = st1.counter + 1 := by simp
          have hDs : IdSpan (deduplicateSiblings childNodes) st.counter st1.counter :=
            IdSpan_of_sublist (collectIdsF_dedup_sublist childNodes) hWs
          have hDn : (collectIdsF (deduplicateSiblings childNodes)).Nodup :=
            (collectIdsF_dedup_sublist childNodes).nodup hWn
          have hfresh : mkNodeId (st1.counter + 1) ∉
              collectIdsF (deduplicateSiblings childNodes) := by
            intro hmem
            obtain ⟨n, hn, _, hb⟩ := hDs _ hmem
            have := mkNodeId_injective hn.symm
            omega
          have hKmem := enforce_ids_mem (deduplicateSiblings childNodes)
            (pushStamp c.dta.eid (takeId st1).1 (takeId st1).2)
          rw [he] at hKmem
          have hKn : (collectIdsF kids).Nodup := by
            have := enforce_ids_nodup (deduplicateSiblings childNodes)
              (pushStamp c.dta.eid (takeId st1).1 (takeId st1).2) hDn
              (by rw [hst2c]; exact hfresh)
            rw [he] at this
            exact this
          have hKc : st1.counter + 1 ≤ st3.counter := by
            have := enforce_counter_le (deduplicateSiblings childNodes)
              (pushStamp c.dta.eid (takeId st1).1 (takeId st1).2)
            rw [he] at this
            simpa using this
          -- membership description of kids ids
          have hKdesc : ∀ s ∈ collectIdsF kids, ∃ n, s = mkNodeId n ∧ st.counter ≤ n ∧
              n < st3.counter ∧ n ≠ st1.counter := by
            intro s hs
            rcases hKmem s hs with hm | ⟨hm, hcnt⟩
            · obtain ⟨n, hn, ha, hb⟩ := hDs s hm
              exact ⟨n, hn, ha, by omega, by omega⟩
            · refine ⟨st1.counter + 1, by simpa [hst2c] using hm, by omega, ?_, by omega⟩
              have : st3.counter = st1.counter + 2 := by
                rw [hcnt, hst2c]
              omega
          rcases hm2 : walkChildren sibs rest (i + 1) depth doc anc ancFull
            (bumpTotal st3) with ⟨moreNodes, st4⟩
          obtain ⟨hMc, hMs, hMn⟩ := by
            have := walkChildren_ids sibs rest (i + 1) depth doc anc ancFull (bumpTotal st3)
            rw [hm2] at this
            dsimp only at this
            exact this
          simp only [bumpTotal_counter] at hMc hMs
          simp only [he, hm2]
          have hnum : (takeId st1).1 = st1.counter := by simp
          refine ⟨by omega, ?_, ?_⟩
          · -- span of node :: moreNodes
            intro s hs
            simp only [collectIdsF, collectIdsN, hnum, List.cons_append, List.mem_cons] at hs
            rcases hs with hs | hs
            · exact ⟨st1.counter, hs, by omega, by omega⟩
            · rcases List.mem_append.mp hs with hs | hs
              · obtain ⟨n, hn, ha, hb, _⟩ := hKdesc s hs
                exact ⟨n, hn, ha, by omega⟩
              · obtain ⟨n, hn, ha, hb⟩ := hMs s hs
                exact ⟨n, hn, by omega, by omega⟩
          · -- nodup of node :: moreNodes
            simp only [collectIdsF, collectIdsN, hnum, List.cons_append]
            refine List.nodup_cons.mpr ⟨?_, ?_⟩
            · intro hmem
              rcases List.mem_append.mp hmem with hs | hs
              · obtain ⟨n, hn, _, _, hne⟩ := hKdesc _ hs
                exact hne (mkNodeId_injective hn).symm
              · obtain ⟨n, hn, ha, _⟩ := hMs _ hs
                have := mkNodeId_injective hn.symm
                omega
            · refine nodup_append_disjoint hKn hMn ?_
              intro s hs hmem
              obtain ⟨n, hn, _, hb, _⟩ := hKdesc s hs
              obtain ⟨n', hn', ha', _⟩ := hMs s hmem
              have : n = n' := mkNodeId_injective (hn.symm.trans hn')
              omega
end

mutual
/-- The assignment log is always the initial segment of counter values. -/
theorem walkDOM_assigned (e : Elem) (depth : Nat) (doc : Elem)
    (anc ancFull : List PathPart) (st : WalkSt)
    (h : st.assigned = List.range st.counter) :
    (walkDOM e depth doc anc ancFull st).2.assigned
      = List.range (walkDOM e depth doc anc ancFull st).2.counter := by
  match e with
  | .mk d cs sh =>
    rw [walkDOM]
    split
    · exact h
    · split
      · exact walkChildren_assigned sh sh 0 depth doc anc ancFull st h
      · exact walkChildren_assigned cs cs 0 depth doc anc ancFull st h

theorem walkChildren_assigned (sibs rem : List Elem) (i depth : Nat) (doc : Elem)
    (anc ancFull : List PathPart) (st : WalkSt)
    (h : st.assigned = List.range st.counter) :
    (walkChildren sibs rem i depth doc anc ancFull st).2.assigned
      = List.range (walkChildren sibs rem i depth doc anc ancFull st).2.counter := by
  match rem with
  | [] =>
    rw [walkChildren]
    exact h
  | c :: rest =>
    rw [walkChildren]
    split
    · exact h
    · split
      · exact walkChildren_assigned sibs rest (i + 1) depth doc anc ancFull st h
      · rcases hw : walkDOM c (depth + 1) doc
          (anc ++ [posPart sibs i c]) (ancFull ++ [fullPart i c]) st with ⟨childNodes, st1⟩
        have h1 : st1.assigned = List.range st1.counter := by
          have := walkDOM_assigned c (depth + 1) doc
            (anc ++ [posPart sibs i c]) (ancFull ++ [fullPart i c]) st h
          rw [hw] at this
          exact this
        simp only [hw]
        split
        · exact walkChildren_assigned sibs rest (i + 1) depth doc anc ancFull st1 h1
        · rcases he : enforceChildLimit (deduplicateSiblings childNodes)
            (pushStamp c.dta.eid (takeId st1).1 (takeId st1).2) with ⟨kids, st3⟩
          have h2 : st3.assigned = List.range st3.counter := by
            have := enforce_assigned (deduplicateSiblings childNodes)
              (pushStamp c.dta.eid (takeId st1).1 (takeId st1).2)
              (by simp [h1, List.range_succ])
            rw [he] at this
            exact this
          rcases hm : walkChildren sibs rest (i + 1) depth doc anc ancFull
            (bumpTotal st3) with ⟨moreNodes, st4⟩
          have h3 : st4.assigned = List.range st4.counter := by
            have := walkChildren_assigned sibs rest (i + 1) depth doc anc ancFull
              (bumpTotal st3) (by simpa using h2)
            rw [hm] at this
            exact this
          simp only [he, hm]
          exact h3
end

theorem alGet_alDel (l : List (String × String)) (k : String) :
    alGet (alDel l k) k = none := by
  induction l with
  | nil => rfl
  | cons kv rest ih =>
    match kv with
    | (k0, v0) =>
      rw [alDel]
      split
      · exact ih
      · next hne =>
        rw [alGet, if_neg hne]
        exact ih

theorem alGet_alSet_self (l : List (String × String)) (k v : String) :
    alGet (alSet l k v) k = some v := by
  induction l with
  | nil => simp [alSet, alGet]
  | cons kv rest ih =>
    match kv with
    | (k0, v0) =>
      rw [alSet]
      split
      · next he => simp [alGet]
      · next hne =>
        rw [alGet, if_neg hne]
        exact ih

mutual
/-- Every element of a `mapAll`-image carries mapped data of some original. -/
theorem mapAll_dta (f : ElemData → ElemData) (e : Elem) :
    ∀ e' ∈ allElems (mapAll f e), ∃ e0 ∈ allElems e, e'.dta = f e0.dta := by
  match e with
  | .mk d cs sh =>
    intro e' he'
    rw [mapAll, allElems] at he'
    rcases List.mem_cons.mp he' with he' | he'
    · exact ⟨.mk d cs sh, by rw [allElems]; exact List.mem_cons_self _ _, by rw [he']; rfl⟩
    · obtain ⟨e0, hm, hd⟩ := mapAllL_dta f cs e' he'
      exact ⟨e0, by rw [allElems]; exact List.mem_cons_of_mem _ hm, hd⟩

theorem mapAllL_dta (f : ElemData → ElemData) (cs : List Elem) :
    ∀ e' ∈ allElemsL (mapAllL f cs), ∃ e0 ∈ allElemsL cs, e'.dta = f e0.dta := by
  match cs with
  | [] => intro e' he'; simp [mapAllL, allElemsL] at he'
  | c :: rest =>
    intro e' he'
    rw [mapAllL, allElemsL] at he'
    rcases List.mem_append.mp he' with he' | he'
    · obtain ⟨e0, hm, hd⟩ := mapAll_dta f c e' he'
      exact ⟨e0, by rw [allElemsL]; exact List.mem_append_left _ hm, hd⟩
    · obtain ⟨e0, hm, hd⟩ := mapAllL_dta f rest e' he'
      exact ⟨e0, by rw [allElemsL]; exact List.mem_append_right _ hm, hd⟩
end

theorem clearMarkers_no_marker (doc : Elem) :
    ∀ e ∈ allElems (clearMarkers doc), getAttr e "data-pb-node" = none := by
  intro e he
  obtain ⟨e0, _, hd⟩ := mapAll_dta (fun d => dDelAttr d "data-pb-node") doc e he
  rw [getAttr, hd]
  exact alGet_alDel _ _

mutual
/-- Every element of a `mapData`-image carries either the original data of
some element or its mapped data. -/
theorem mapData_dta (eid : Nat) (f : ElemData → ElemData) (e : Elem) :
    ∀ e' ∈ allElems (mapData eid f e),
      ∃ e0 ∈ allElems e, e'.dta = e0.dta ∨ e'.dta = f e0.dta := by
  match e with
  | .mk d cs sh =>
    intro e' he'
    rw [mapData, allElems] at he'
    rcases List.mem_cons.mp he' with he' | he'
    · refine ⟨.mk d cs sh, by rw [allElems]; exact List.mem_cons_self _ _, ?_⟩
      rw [he']
      dsimp only [Elem.dta]
      split
      · exact Or.inr rfl
      · exact Or.inl rfl
    · obtain ⟨e0, hm, hd⟩ := mapDataL_dta eid f cs e' he'
      exact ⟨e0, by rw [allElems]; exact List.mem_cons_of_mem _ hm, hd⟩

theorem mapDataL_dta (eid : Nat) (f : ElemData → ElemData) (cs : List Elem) :
    ∀ e' ∈ allElemsL (mapDataL eid f cs),
      ∃ e0 ∈ allElemsL cs, e'.dta = e0.dta ∨ e'.dta = f e0.dta := by
  match cs with
  | [] => intro e' he'; simp [mapDataL, allElemsL] at he'
  | c :: rest =>
    intro e' he'
    rw [mapDataL, allElemsL] at he'
    rcases List.mem_append.mp he' with he' | he'
    · obtain ⟨e0, hm, hd⟩ := mapData_dta eid f c e' he'
      exact ⟨e0, by rw [allElemsL]; exact List.mem_append_left _ hm, hd⟩
    · obtain ⟨e0, hm, hd⟩ := mapDataL_dta eid f rest e' he'
      exact ⟨e0, by rw [allElemsL]; exact List.mem_append_right _ hm, hd⟩
end

/-- Every marker present after replaying the stamp log is a stamped value or
was present before. -/
theorem applyStamps_markers : ∀ (stamps : List (Nat × Nat)) (doc : Elem),
    ∀ e ∈ allElems (applyStamps doc stamps), ∀ v, getAttr e "data-pb-node" = some v →
      (∃ p ∈ stamps, v = mkNodeId p.2)
        ∨ (∃ e0 ∈ allElems doc, getAttr e0 "data-pb-node" = some v) := by
  intro stamps
  induction stamps with
  | nil =>
    intro doc e he v hv
    exact Or.inr ⟨e, he, hv⟩
  | cons p rest ih =>
    intro doc e he v hv
    have hstep : applyStamps doc (p :: rest)
        = applyStamps (setAttrById doc p.1 "data-pb-node" (mkNodeId p.2)) rest := rfl
    rw [hstep] at he
    rcases ih (setAttrById doc p.1 "data-pb-node" (mkNodeId p.2)) e he v hv with h | h
    · obtain ⟨q, hq, hvq⟩ := h
      exact Or.inl ⟨q, List.mem_cons_of_mem _ hq, hvq⟩
    · obtain ⟨e1, he1, hv1⟩ := h
      obtain ⟨e0, he0, hd⟩ :=
        mapData_dta p.1 (fun d => dSetAttr d "data-pb-node" (mkNodeId p.2)) doc e1 he1
      rcases hd with hd | hd
      · rw [getAttr, hd] at hv1
        exact Or.inr ⟨e0, he0, hv1⟩
      · rw [getAttr, hd] at hv1
        have : alGet (alSet e0.dta.attrs "data-pb-node" (mkNodeId p.2)) "data-pb-node"
            = some (mkNodeId p.2) := alGet_alSet_self _ _ _
        rw [show dSetAttr e0.dta "data-pb-node" (mkNodeId p.2) =
          { e0.dta with attrs := alSet e0.dta.attrs "data-pb-node" (mkNodeId p.2) } from rfl]
          at hv1
        dsimp only at hv1
        rw [this] at hv1
        exact Or.inl ⟨p, List.mem_cons_self _ _, (Option.some.injEq _ _).mp hv1 |>.symm⟩

/-- Claim C9 — `extractSkeleton` starts from a marker-free document with both
counters reset: the log of assigned ids is exactly `node-0, node-1, ...` in
strictly increasing order, the snapshot's node ids are pairwise distinct
counter renderings, and every `data-pb-node` marker on the live document after
the run is one stamped by this run (none stamped by an earlier snapshot
survives the initial sweep). -/
theorem C9_extractSkeleton_fresh_ids (url title metaDescription : String) (now : Nat)
    (doc : Elem) :
    (extractSkeleton url title metaDescription now doc).finalSt.assigned
        = List.range (extractSkeleton url title metaDescription now doc).finalSt.counter ∧
    (collectIdsF (extractSkeleton url title metaDescription now doc).skeleton.nodes).Nodup ∧
    (∀ s ∈ collectIdsF (extractSkeleton url title metaDescription now doc).skeleton.nodes,
      ∃ n, s = mkNodeId n
        ∧ n < (extractSkeleton url title metaDescription now doc).finalSt.counter) ∧
    (∀ e ∈ allElems (clearMarkers doc), getAttr e "data-pb-node" = none) ∧
    (∀ e ∈ allElems (extractSkeleton url title metaDescription now doc).stampedDoc,
      ∀ v, getAttr e "data-pb-node" = some v →
        ∃ p ∈ (extractSkeleton url title metaDescription now doc).finalSt.stamps,
          v = mkNodeId p.2) := by
  unfold extractSkeleton
  rcases hw : walkDOM (clearMarkers doc) 0 (clearMarkers doc) [bodyPart] [bodyPart] {}
    with ⟨nodes, stF⟩
  simp only [hw]
  obtain ⟨hc, hs, hn⟩ := by
    have := walkDOM_ids (clearMarkers doc) 0 (clearMarkers doc) [bodyPart] [bodyPart] {}
    rw [hw] at this
    dsimp only at this
    exact this
  refine ⟨?_, ?_, ?_, clearMarkers_no_marker doc, ?_⟩
  · have := walkDOM_assigned (clearMarkers doc) 0 (clearMarkers doc) [bodyPart] [bodyPart] {}
      (by rfl)
    rw [hw] at this
    exact this
  · exact (collectIdsF_dedup_sublist nodes).nodup hn
  · intro s hsm
    obtain ⟨n, hne, _, hb⟩ := hs s ((collectIdsF_dedup_sublist nodes).subset hsm)
    exact ⟨n, hne, hb⟩
  · intro e he v hv
    rcases applyStamps_markers stF.stamps (clearMarkers doc) e he v hv with h | h
    · exact h
    · obtain ⟨e0, he0, hv0⟩ := h
      rw [clearMarkers_no_marker doc e0 he0] at hv0
      exact absurd hv0 (by simp)

/-- Small document used to instantiate the C9 theorem concretely. -/
def c9Doc : Elem :=
  .mk { eid := 0, tag := "body" }
    [ .mk { eid := 1, tag := "section", attrs := [("data-pb-node", "node-77")] }
        [ .mk { eid := 2, tag := "p", ownText := "hello there" } [] [] ] [] ] []

/-- Witness for C9: on `c9Doc` the id `node-0` appearing in the snapshot is a
counter rendering below the final counter. -/
theorem C9_witness :
    ∃ n, "node-0" = mkNodeId n
      ∧ n < (extractSkeleton ("u") ("t") ("m") 0 c9Doc).finalSt.counter :=
  (C9_extractSkeleton_fresh_ids ("u") ("t") ("m") 0 c9Doc).2.2.1 "node-0" (by decide)

/-- Leaf paragraph with a distinct four/five-character text (distinct in the
first characters, so sibling dedup never merges two of them). -/
def ovLeaf (n : Nat) : Elem := .mk { eid := n, tag := "p", ownText := "t" ++ natToStr n } [] []

/-- Container with 25 kept leaf children. -/
def ovDiv (i : Nat) : Elem :=
  .mk { eid := 2 + i, tag := "div" } ((List.range 25).map (fun k => ovLeaf (100 + 25 * i + k))) []

/-- Document on which the walk's node budget overshoots: body > section >
6 divs of 25 leaves each.  The leaves of the first five divs and their divs
consume 130 budget slots; the sixth div's leaves reach the 150 cap after 20,
and the sixth div, then the section, are still emitted after the cap. -/
def overshootDoc : Elem :=
  .mk { eid := 0, tag := "body" }
    [ .mk { eid := 1, tag := "section" } ((List.range 6).map ovDiv) [] ] []

set_option maxRecDepth 10000 in
set_option maxHeartbeats 1000000 in
/-- Claim C2 counterexample: on `overshootDoc` the produced snapshot holds 152
nodes, exceeding the configured `MAX_NODES = 150` budget. -/
theorem C2_counterexample :
    MAX_NODES <
      countNodes (extractSkeleton ("u") ("t") ("m") 0 overshootDoc).skeleton.nodes := by
  decide

/-- Witness for C3 at a concrete 31-element child list, checking the theorem
applies there. -/
theorem C3_witness :
    let n0 := SkeletonNode.mk "node-9" Sel.emptySel none NodeType.text "txt" "p" none none none []
    let cs := List.replicate 31 n0
    MAX_CHILDREN < cs.length ∧
      ((enforceChildLimit cs {}).1.length = MAX_CHILDREN + 1 ∧
        (enforceChildLimit cs {}).1
          = cs.take 20
              ++ [SkeletonNode.mk (mkNodeId (WalkSt.counter {})) Sel.emptySel none NodeType.text
                    ("... (" ++ natToStr (cs.length - 30) ++ " more items)") "synthetic"
                    none none none []]
              ++ cs.drop (cs.length - 10)) :=
  ⟨by decide, (C3_enforceChildLimit_cap _ {}).2 (by decide)⟩

/-! ## Response parsing (`src/background/llm-engine.ts`)

`parseResponse` is embedded over the outcome of `JSON.parse` on the cleaned
raw string: `none` models a parse exception, `some j` a parsed JSON value.
`getSettings()` is environmental (chrome storage, with an internal catch that
never throws) and enters as an explicit argument. -/

inductive Json where
  | jnull
  | jbool (b : Bool)
  | jnum (n : Int)
  | jstr (s : String)
  | jarr (items : List Json)
  | jobj (fields : List (String × Json))
deriving Repr

/-- Property access `obj[k]` on a parsed JSON object. -/
def jGet (fields : List (String × Json)) (k : String) : Option Json :=
  match fields with
  | [] => none
  | (k0, v0) :: rest => if k0 = k then some v0 else jGet rest k

/-- JS `parsed.k`: a field of an object, `undefined` otherwise (reading a
field of a non-object either throws or yields `undefined`; both end in the
same catch/fallthrough here). -/
def jField (j : Json) (k : String) : Option Json :=
  match j with
  | .jobj fields => jGet fields k
  | _ => none

/-- Per-action switches of `ExtensionSettings.enabledActions`. -/
structure EnabledActions where
  highlight : Bool := true
  collapse : Bool := true
  dim : Bool := true
  annotate : Bool := true
  reorder : Bool := true
deriving Repr, DecidableEq

structure ExtensionSettings where
  apiKey : String := ""
  enabled : Bool := true
  model : String := "gemini-2.0-flash"
  intensity : String := "balanced"
  enabledActions : EnabledActions := {}
deriving Repr, DecidableEq

/-- The closed action list filtered by the settings switches. -/
def enabledList (s : ExtensionSettings) : List String :=
  (["highlight", "collapse", "reorder", "annotate", "dim"]).filter (fun a =>
    if a = "highlight" then s.enabledActions.highlight
    else if a = "collapse" then s.enabledActions.collapse
    else if a = "reorder" then s.enabledActions.reorder
    else if a = "annotate" then s.enabledActions.annotate
    else if a = "dim" then s.enabledActions.dim
    else false)

/-- Validation filter for one transform entry: an object whose `action` is an
enabled action string, whose `selector` is a non-empty string and whose
`relevance` is a number; everything else is dropped silently.  (A JS array
also has `typeof "object"`, but its `action` is `undefined` and fails the
`includes` test, so only objects can pass.) -/
def isValidTransform (enabled : List String) (t : Json) : Bool :=
  match t with
  | .jobj fields =>
    (match jGet fields "action" with
     | some (.jstr a) => enabled.contains a
     | _ => false)
    && (match jGet fields "selector" with
        | some (.jstr s) => s ≠ ""
        | _ => false)
    && (match jGet fields "relevance" with
        | some (.jnum _) => true
        | _ => false)
  | _ => false

/-- Parsed-response record; the accepted transform entries are kept as the raw
JSON objects (the source casts, it does not convert). -/
structure TransformResponseJ where
  transforms : List Json
  summary : String
  inferredIntent : String
  digest : Option String
deriving Repr

/-- Graceful-degradation value of the catch branch. -/
def fallbackResponse : TransformResponseJ :=
  { transforms := [],
    summary := "Could not optimize this page.",
    inferredIntent := "Unknown" ,
    digest := none }

/-- `parseResponse(raw)` over the `JSON.parse` outcome. -/
def parseResponse (settings : ExtensionSettings) (parsed : Option Json) :
    TransformResponseJ :=
  match parsed with
  | none => fallbackResponse
  | some p =>
    match jField p "transforms" with
    | some (.jarr ts) =>
      let enabled := enabledList settings
      { transforms := (ts.filter (isValidTransform enabled)).take 25,
        summary :=
          match jField p "summary" with
          | some (.jstr s) => if s ≠ "" then s else "Page reshaped based on your interests."
          | _ => "Page reshaped based on your interests.",
        inferredIntent :=
          match jField p "inferredIntent" with
          | some (.jstr s) => if s ≠ "" then s else "General browsing"
          | _ => "General browsing",
        digest :=
          match jField p "digest" with
          | some (.jstr s) => if s ≠ "" then some s else none
          | _ => none }
    | _ => fallbackResponse

/-- Claim C7 — `parseResponse` is total and defensive: at most 25 transforms
are accepted; every accepted entry is an object with an enabled action, a
non-empty string selector and a numeric relevance (all other entries are
dropped silently); a well-formed response yields exactly the validated
prefix; a parse failure or a structurally invalid value degrades to the empty
transform list, leaving the document unmodified. -/
theorem C7_parseResponse_defensive (settings : ExtensionSettings) (parsed : Option Json) :
    (parseResponse settings parsed).transforms.length ≤ 25 ∧
    (∀ t ∈ (parseResponse settings parsed).transforms,
      ∃ fields, t = Json.jobj fields
        ∧ (∃ a, jGet fields "action" = some (.jstr a)
            ∧ (enabledList settings).contains a = true)
        ∧ (∃ s, jGet fields "selector" = some (.jstr s) ∧ s ≠ "")
        ∧ (∃ r, jGet fields "relevance" = some (.jnum r))) ∧
    (∀ p ts, parsed = some p → jField p "transforms" = some (.jarr ts) →
      (parseResponse settings parsed).transforms
        = (ts.filter (isValidTransform (enabledList settings))).take 25) ∧
    (parsed = none → parseResponse settings parsed = fallbackResponse) ∧
    (∀ p, parsed = some p → (∀ ts, jField p "transforms" ≠ some (.jarr ts)) →
      parseResponse settings parsed = fallbackResponse) := by
  have hvalid : ∀ t, isValidTransform (enabledList settings) t = true →
      ∃ fields, t = Json.jobj fields
        ∧ (∃ a, jGet fields "action" = some (.jstr a)
            ∧ (enabledList settings).contains a = true)
        ∧ (∃ s, jGet fields "selector" = some (.jstr s) ∧ s ≠ "")
        ∧ (∃ r, jGet fields "relevance" = some (.jnum r)) := by
    intro t ht
    match t, ht with
    | .jobj fields, ht =>
      refine ⟨fields, rfl, ?_, ?_, ?_⟩
      · rw [isValidTransform, Bool.and_assoc, Bool.and_eq_true] at ht
        rcases hact : jGet fields "action" with _ | a
        · rw [hact] at ht
          exact absurd ht.1 (by simp)
        · match a, ht.1 with
          | .jstr av, h1 =>
            rw [hact] at h1
            exact ⟨av, rfl, h1⟩
          | .jnull, h1 | .jbool _, h1 | .jnum _, h1 | .jarr _, h1 | .jobj _, h1 =>
            rw [hact] at h1
            simp at h1
      · rw [isValidTransform, Bool.and_assoc, Bool.and_eq_true] at ht
        have h2 := (Bool.and_eq_true _ _).mp ht.2 |>.1
        rcases hsel : jGet fields "selector" with _ | sv
        · rw [hsel] at h2
          simp at h2
        · match sv, h2 with
          | .jstr s, h2 =>
            rw [hsel] at h2
            refine ⟨s, rfl, by simpa using h2⟩
          | .jnull, h2 | .jbool _, h2 | .jnum _, h2 | .jarr _, h2 | .jobj _, h2 =>
            rw [hsel] at h2
            simp at h2
      · rw [isValidTransform, Bool.and_assoc, Bool.and_eq_true] at ht
        have h3 := (Bool.and_eq_true _ _).mp ht.2 |>.2
        rcases hrel : jGet fields "relevance" with _ | rv
        · rw [hrel] at h3
          simp at h3
        · match rv, h3 with
          | .jnum r, h3 => exact ⟨r, rfl⟩
          | .jnull, h3 | .jbool _, h3 | .jstr _, h3 | .jarr _, h3 | .jobj _, h3 =>
            rw [hrel] at h3
            simp at h3
  refine ⟨?_, ?_, ?_, ?_, ?_⟩
  · match parsed with
    | none => simp [parseResponse, fallbackResponse]
    | some p =>
      rw [parseResponse]
      rcases hf : jField p "transforms" with _ | j
      · simp [fallbackResponse]
      · match j with
        | .jarr ts => simpa using List.length_take_le 25 _
        | .jnull | .jbool _ | .jnum _ | .jstr _ | .jobj _ => simp [fallbackResponse]
  · match parsed with
    | none => intro t ht; simp [parseResponse, fallbackResponse] at ht
    | some p =>
      rw [parseResponse]
      rcases hf : jField p "transforms" with _ | j
      · intro t ht; simp [fallbackResponse] at ht
      · match j with
        | .jarr ts =>
          intro t ht
          dsimp only at ht
          have hmem := List.mem_of_mem_take ht
          exact hvalid t (List.of_mem_filter hmem)
        | .jnull | .jbool _ | .jnum _ | .jstr _ | .jobj _ =>
          intro t ht; simp [fallbackResponse] at ht
  · intro p ts hp hf
    subst hp
    rw [parseResponse, hf]
  · intro hp
    subst hp
    rfl
  · intro p hp hnone
    subst hp
    rw [parseResponse]
    rcases hf : jField p "transforms" with _ | j
    · rfl
    · match j with
      | .jarr ts => exact absurd hf (hnone ts)
      | .jnull | .jbool _ | .jnum _ | .jstr _ | .jobj _ => rfl

/-- Concrete mixed transform array used to instantiate C7: two valid entries
among an unknown action, a missing selector, a string relevance and a
non-object. -/
def c7List : List Json :=
  [ .jobj [("action", .jstr "highlight"), ("selector", .jstr "[data-pb-node=node-1]"),
           ("relevance", .jnum 90)],
    .jobj [("action", .jstr "explode"), ("selector", .jstr "x"), ("relevance", .jnum 5)],
    .jobj [("action", .jstr "dim"), ("relevance", .jnum 10)],
    .jobj [("action", .jstr "collapse"), ("selector", .jstr "y"),
           ("relevance", .jstr "high")],
    .jnum 7,
    .jobj [("action", .jstr "dim"), ("selector", .jstr "z"), ("relevance", .jnum 20)] ]

def c7Parsed : Json := .jobj [("transforms", .jarr c7List), ("summary", .jstr "ok")]

/-- Witness for C7: on `c7Parsed` the result is exactly the validated prefix
of the transform array. -/
theorem C7_witness :
    jField c7Parsed "transforms" = some (.jarr c7List) ∧
    (parseResponse {} (some c7Parsed)).transforms
      = (c7List.filter (isValidTransform (enabledList {}))).take 25 :=
  ⟨rfl, (C7_parseResponse_defensive {} (some c7Parsed)).2.2.1 c7Parsed c7List rfl rfl⟩

/-! ## Transformer (`src/content/transformer.ts`, later revision)

`window`-level framework probes enter as a `WindowEnv` record;
`[ng-version]` / `[data-reactroot]` attribute-existence queries run over the
modelled document. -/

inductive FrameworkType where
  | next | react | vue | angular | vanilla
deriving Repr, DecidableEq

structure WindowEnv where
  hasNextData : Bool := false
  hasNuxt : Bool := false
  hasVueApp : Bool := false
  hasAngularFn : Bool := false
deriving Repr, DecidableEq

def detectFramework (w : WindowEnv) (doc : Elem) : FrameworkType :=
  if w.hasNextData then .next
  else if w.hasNuxt || w.hasVueApp then .vue
  else if w.hasAngularFn || (firstElem doc (fun e => (getAttr e "ng-version").isSome)).isSome
    then .angular
  else if (firstElem doc (fun e => (getAttr e "data-reactroot").isSome)).isSome then .react
  else .vanilla

inductive TransformAction where
  | highlight | collapse | reorder | annotate | dim
deriving Repr, DecidableEq

/-- Reorder target position: `"top"`, `"above:<selector>"`, or anything else
(which moves nothing). -/
inductive PosSpec where
  | top
  | above (target : Sel)
  | invalid
deriving Repr, DecidableEq

structure TransformInstruction where
  action : TransformAction
  selector : Sel
  reason : String := ""
  position : Option PosSpec := none
  annotationText : Option String := none
  relevance : Int
  badgeCls : Option String := none
deriving Repr, DecidableEq

structure TransformResponse where
  transforms : List TransformInstruction
  summary : String := ""
  inferredIntent : String := ""
  digest : Option String := none
deriving Repr, DecidableEq

/-- JS `Map.get`. -/
def mapGet {α : Type} (m : List (Sel × α)) (k : Sel) : Option α :=
  match m with
  | [] => none
  | (k0, v0) :: rest => if k0 = k then some v0 else mapGet rest k

/-- JS `Map.set`: overwrite in place or append. -/
def mapSet {α : Type} (m : List (Sel × α)) (k : Sel) (v : α) : List (Sel × α) :=
  match m with
  | [] => [(k, v)]
  | (k0, v0) :: rest => if k0 = k then (k, v) :: rest else (k0, v0) :: mapSet rest k v

mutual
/-- Flat map selector → node (children after the node itself). -/
def buildSelectorMap (nodes : List SkeletonNode) (m : List (Sel × SkeletonNode)) :
    List (Sel × SkeletonNode) :=
  match nodes with
  | [] => m
  | n :: rest => buildSelectorMap rest (buildSelectorMapNode n m)

def buildSelectorMapNode (n : SkeletonNode) (m : List (Sel × SkeletonNode)) :
    List (Sel × SkeletonNode) :=
  match n with
  | .mk i s f t p tg hl hr al cs =>
    let m1 := if s ≠ Sel.emptySel then mapSet m s (.mk i s f t p tg hl hr al cs) else m
    if cs.length > 0 then buildSelectorMap cs m1 else m1
end

mutual
/-- Flat map primary selector → fallback nth-child selector. -/
def buildFallbackMap (nodes : List SkeletonNode) (m : List (Sel × Sel)) :
    List (Sel × Sel) :=
  match nodes with
  | [] => m
  | n :: rest => buildFallbackMap rest (buildFallbackMapNode n m)

def buildFallbackMapNode (n : SkeletonNode) (m : List (Sel × Sel)) : List (Sel × Sel) :=
  match n with
  | .mk i s f t p tg hl hr al cs =>
    let m1 := match f with
      | some fb => mapSet m s fb
      | none => m
    if cs.length > 0 then buildFallbackMap cs m1 else m1
end

/-! ### Tier 3 — text content matching -/

/-- `replace(/\.\.\.$/, "")`. -/
def stripTrailingDots (s : String) : String :=
  if strEndsWith s "..." then strDropRight s 3 else s

/-- `replace(/…\s*$/, "")`: a `…` followed only by whitespace at the end. -/
def stripTrailingEllipsis (s : String) : String :=
  let r := s.data.reverse.dropWhile isWSChar
  match r with
  | c :: rest => if c = '…' then ofChars rest.reverse else s
  | [] => s

/-- `replace(/^×\s*repeated \d+x:\s*/, "")`. -/
def stripRepeatMarker (s : String) : String :=
  match s.data with
  | c :: rest =>
    if c = '×' then
      let afterWS := rest.dropWhile isWSChar
      if ("repeated ").data.isPrefixOf afterWS then
        let afterRep := afterWS.drop 9
        let digits := afterRep.takeWhile (fun ch => ch.isDigit)
        if digits ≠ [] ∧ ("x:").data.isPrefixOf (afterRep.drop digits.length) then
          ofChars ((afterRep.drop (digits.length + 2)).dropWhile isWSChar)
        else s
      else s
    else s
  | [] => s

/-- Preview cleanup chain of `findByTextContent`. -/
def cleanPreview (s : String) : String :=
  strTrim (stripRepeatMarker (stripTrailingEllipsis (stripTrailingDots s)))

/-- Candidate text: `textContent.trim().replace(/\s+/g, " ").slice(0, 300)
.toLowerCase()`. -/
def elNormText (e : Elem) : String :=
  strToLower (strTake (normalizeWS (textContent e)) 300)

def CONTAINER_TAGS : List String :=
  ["div", "section", "article", "aside", "main", "header", "footer", "li", "td", "tr"]

/-- Pass-2 candidate selector `section, article, [class*="content"], ...`. -/
def broadMatch (e : Elem) : Bool :=
  e.dta.tag = "section" || e.dta.tag = "article"
  || (["content", "post", "card", "item", "block", "row"].any (fun h =>
        strContains ((getAttr e "class").getD "") h))

/-- Fingerprint test applied to one candidate: skip already-transformed
elements, else check containment. -/
def tier3Hit (fingerprint : String) (e : Elem) : Bool :=
  !(truthyAttr e "data-pb-transformed") && strContains (elNormText e) fingerprint

/-- Pass 1: the first 400 same-tag elements. -/
def tier3Pass1 (doc : Elem) (node : SkeletonNode) (fingerprint : String) : Option Elem :=
  (((allElems doc).filter (fun e => e.dta.tag = node.tag)).take 400).find?
    (tier3Hit fingerprint)

/-- Pass 2: the first 250 semantic-container candidates. -/
def tier3Pass2 (doc : Elem) (fingerprint : String) : Option Elem :=
  (((allElems doc).filter broadMatch).take 250).find? (tier3Hit fingerprint)

def findByTextContent (doc : Elem) (node : SkeletonNode) : Option Elem :=
  let raw := cleanPreview node.textPreview
  if raw = "" || strLen raw < 8 then none
  else
    let fingerprint := strToLower (strTake raw 35)
    match tier3Pass1 doc node fingerprint with
    | some el => some el
    | none =>
      if CONTAINER_TAGS.contains node.tag then tier3Pass2 doc fingerprint
      else none

/-! ### 3-tier element finder -/

/-- `selector.match(/data-pb-node="([^"]+)"/)?.[1]`: only the marker shape
contains that pattern among the selector shapes the system produces. -/
def markerIdOf : Sel → Option String
  | .marker nodeId => if nodeId ≠ "" then some nodeId else none
  | _ => none

/-- Re-stamps the marker attribute onto the found element. -/
def restampMarker (doc : Elem) (selector : Sel) (found : Elem) : Elem :=
  match markerIdOf selector with
  | some nid => setAttrById doc found.dta.eid "data-pb-node" nid
  | none => doc

/-- Tier 2: the precomputed positional fallback path. -/
def tier2Lookup (doc : Elem) (fallbackMap : List (Sel × Sel)) (selector : Sel) :
    Option Elem :=
  match mapGet fallbackMap selector with
  | some fb => querySel doc fb
  | none => none

/-- Tier 3: text-fingerprint search over the node stored for this selector. -/
def tier3Lookup (doc : Elem) (selectorMap : List (Sel × SkeletonNode)) (selector : Sel) :
    Option Elem :=
  match mapGet selectorMap selector with
  | some node => findByTextContent doc node
  | none => none

/-- `findElement`: tier 1, then (unless the document is fingerprinted as the
volatile `next` framework) tier 2, then tier 3, with tier 2 as the last
resort for `next`; tier 2/3 successes are re-stamped.  Returns the found
element's identity and the possibly re-stamped document. -/
def findElement (doc : Elem) (selector : Sel) (selectorMap : List (Sel × SkeletonNode))
    (fallbackMap : List (Sel × Sel)) (framework : FrameworkType) : Option Nat × Elem :=
  match querySel doc selector with
  | some el => (some el.dta.eid, doc)
  | none =>
    if framework ≠ FrameworkType.next then
      match tier2Lookup doc fallbackMap selector with
      | some el => (some el.dta.eid, restampMarker doc selector el)
      | none =>
        match tier3Lookup doc selectorMap selector with
        | some el => (some el.dta.eid, restampMarker doc selector el)
        | none => (none, doc)
    else
      match tier3Lookup doc selectorMap selector with
      | some el => (some el.dta.eid, restampMarker doc selector el)
      | none =>
        match tier2Lookup doc fallbackMap selector with
        | some el => (some el.dta.eid, restampMarker doc selector el)
        | none => (none, doc)

mutual
/-- Addressing commutes with a data-only update that preserves ids. -/
theorem byEid_mapData (y : Nat) (f : ElemData → ElemData) (hf : ∀ d, (f d).eid = d.eid) :
    ∀ (e : Elem) (x : Nat),
      byEid (mapData y f e) x = Option.map (mapData y f) (byEid e x) := by
  intro e x
  match e with
  | .mk d cs sh =>
    rw [mapData, byEid, byEid]
    by_cases hx : d.eid = x
    · rw [if_pos hx, if_pos (by split <;> simp [hf, hx]), Option.map_some']
      rw [mapData]
    · rw [if_neg hx, if_neg (by split <;> simp [hf, hx])]
      exact byEidL_mapData y f hf cs x

theorem byEidL_mapData (y : Nat) (f : ElemData → ElemData) (hf : ∀ d, (f d).eid = d.eid) :
    ∀ (cs : List Elem) (x : Nat),
      byEidL x (mapDataL y f cs) = Option.map (mapData y f) (byEidL x cs) := by
  intro cs x
  match cs with
  | [] => rfl
  | c :: rest =>
    rw [mapDataL, byEidL, byEidL]
    rw [byEid_mapData y f hf c x]
    rcases hc : byEid c x with _ | r
    · rw [Option.map_none']
      exact byEidL_mapData y f hf rest x
    · rw [Option.map_some']
end

mutual
theorem byEid_eid_eq {x : Nat} : ∀ {e elv : Elem}, byEid e x = some elv → elv.dta.eid = x := by
  intro e elv h
  match e with
  | .mk d cs sh =>
    rw [byEid] at h
    split at h
    · next he =>
      cases h
      exact he
    · exact byEidL_eid_eq h

theorem byEidL_eid_eq {x : Nat} : ∀ {cs : List Elem} {elv : Elem},
    byEidL x cs = some elv → elv.dta.eid = x := by
  intro cs elv h
  match cs with
  | [] => exact absurd h (by simp [byEidL])
  | c :: rest =>
    rw [byEidL] at h
    revert h
    rcases hc : byEid c x with _ | r
    · intro h
      exact byEidL_eid_eq h
    · intro h
      cases h
      exact byEid_eid_eq hc
end

theorem dta_mapData_self (y : Nat) (f : ElemData → ElemData) (e : Elem) (h : e.dta.eid = y) :
    (mapData y f e).dta = f e.dta := by
  match e with
  | .mk d cs sh =>
    dsimp only [Elem.dta] at h
    rw [mapData]
    rw [if_pos h]
    rfl

/-- Claim C10 — the tier-3 text search never returns an element already
carrying the applied marker (`data-pb-transformed` truthy), and returns
nothing when the cleaned excerpt is shorter than 8 characters. -/
theorem C10_findByTextContent_safe (doc : Elem) (node : SkeletonNode) :
    (∀ el, findByTextContent doc node = some el →
      truthyAttr el "data-pb-transformed" = false) ∧
    (strLen (cleanPreview node.textPreview) < 8 → findByTextContent doc node = none) := by
  constructor
  · intro el hel
    rw [findByTextContent] at hel
    split at hel
    · exact absurd hel (by simp)
    · dsimp only at hel
      rcases hfind : tier3Pass1 doc node
          (strToLower (strTake (cleanPreview node.textPreview) 35)) with _ | e1
      · rw [hfind] at hel
        by_cases hct : CONTAINER_TAGS.contains node.tag
        · rw [if_pos hct] at hel
          have hp := List.find?_some (by rw [tier3Pass2] at hel; exact hel)
          rw [tier3Hit, Bool.and_eq_true] at hp
          simpa using hp.1
        · rw [if_neg hct] at hel
          exact absurd hel (by simp)
      · rw [hfind] at hel
        have he1 : e1 = el := by simpa using hel
        subst he1
        have hp := List.find?_some (by rw [tier3Pass1] at hfind; exact hfind)
        rw [tier3Hit, Bool.and_eq_true] at hp
        simpa using hp.1
  · intro hlen
    rw [findByTextContent]
    rw [if_pos (by simp [hlen])]

/-- Concrete document for the C10 witness: the first matching paragraph is
already transformed, the second is clean and gets returned. -/
def c10Doc : Elem :=
  .mk { eid := 0, tag := "body" }
    [ .mk { eid := 1, tag := "p", ownText := "startup jobs listed here",
            attrs := [("data-pb-transformed", "true")] } [] [],
      .mk { eid := 2, tag := "p", ownText := "startup jobs listed here" } [] [] ] []

def c10Node : SkeletonNode :=
  .mk "node-4" (Sel.marker "node-4") none NodeType.text "startup jobs listed..." "p"
    none none none []

/-- Witness for C10: the returned element is the untransformed paragraph. -/
theorem C10_witness :
    truthyAttr (Elem.mk { eid := 2, tag := "p", ownText := "startup jobs listed here" } [] [])
      "data-pb-transformed" = false :=
  (C10_findByTextContent_safe c10Doc c10Node).1 _ (by rfl)

/-- Claim C4 — tier order of `findElement`: tier 1 wins untouched; for
non-volatile documents tier 2 is tried before tier 3; for documents
fingerprinted as `next` tier 3 is tried with tier 2 deferred to last resort;
tier 2/3 hits are re-stamped with the selector's marker id; and when every
tier fails the result is `none` with the document untouched (the function is
total — it never throws). -/
theorem C4_findElement_tiers (doc : Elem) (selector : Sel)
    (selectorMap : List (Sel × SkeletonNode)) (fallbackMap : List (Sel × Sel))
    (framework : FrameworkType) :
    (∀ el, querySel doc selector = some el →
      findElement doc selector selectorMap fallbackMap framework = (some el.dta.eid, doc)) ∧
    (querySel doc selector = none → framework ≠ FrameworkType.next →
      ∀ el, tier2Lookup doc fallbackMap selector = some el →
        findElement doc selector selectorMap fallbackMap framework
          = (some el.dta.eid, restampMarker doc selector el)) ∧
    (querySel doc selector = none → framework ≠ FrameworkType.next →
      tier2Lookup doc fallbackMap selector = none →
      ∀ el, tier3Lookup doc selectorMap selector = some el →
        findElement doc selector selectorMap fallbackMap framework
          = (some el.dta.eid, restampMarker doc selector el)) ∧
    (querySel doc selector = none → framework = FrameworkType.next →
      ∀ el, tier3Lookup doc selectorMap selector = some el →
        findElement doc selector selectorMap fallbackMap framework
          = (some el.dta.eid, restampMarker doc selector el)) ∧
    (querySel doc selector = none → framework = FrameworkType.next →
      tier3Lookup doc selectorMap selector = none →
      ∀ el, tier2Lookup doc fallbackMap selector = some el →
        findElement doc selector selectorMap fallbackMap framework
          = (some el.dta.eid, restampMarker doc selector el)) ∧
    (querySel doc selector = none →
      tier2Lookup doc fallbackMap selector = none →
      tier3Lookup doc selectorMap selector = none →
      findElement doc selector selectorMap fallbackMap framework = (none, doc)) ∧
    (∀ nid el, markerIdOf selector = some nid →
      getAttr ((byEid (restampMarker doc selector el) el.dta.eid).getD el)
        "data-pb-node" = some nid
        ∨ byEid doc el.dta.eid = none) := by
  refine ⟨?_, ?_, ?_, ?_, ?_, ?_, ?_⟩
  · intro el h1
    rw [findElement, h1]
  · intro h1 hfw el h2
    rw [findElement, h1]
    simp only [if_pos hfw, h2]
  · intro h1 hfw h2 el h3
    rw [findElement, h1]
    simp only [if_pos hfw, h2, h3]
  · intro h1 hfw el h3
    subst hfw
    rw [findElement, h1]
    simp only [h3]
    rw [if_neg (by simp)]
  · intro h1 hfw h3 el h2
    subst hfw
    rw [findElement, h1]
    simp only [h3, h2]
    rw [if_neg (by simp)]
  · intro h1 h2 h3
    rw [findElement, h1]
    by_cases hfw : framework = FrameworkType.next
    · rw [if_neg (by simp [hfw]), h3, h2]
    · rw [if_pos hfw, h2, h3]
  · intro nid el hm
    rcases hb : byEid doc el.dta.eid with _ | elv
    · exact Or.inr rfl
    · refine Or.inl ?_
      have hre : restampMarker doc selector el
          = setAttrById doc el.dta.eid "data-pb-node" nid := by
        rw [restampMarker, hm]
      rw [hre, setAttrById,
        byEid_mapData el.dta.eid (fun d => dSetAttr d "data-pb-node" nid)
          (fun d => rfl) doc el.dta.eid, hb]
      have helv : elv.dta.eid = el.dta.eid := byEid_eid_eq hb
      rw [Option.map_some', Option.getD_some, getAttr,
        dta_mapData_self el.dta.eid _ elv helv]
      exact alGet_alSet_self _ _ _

/-- Concrete document for the C4 witness: a paragraph already carrying the
walk's `data-pb-node` marker, found directly by tier 1. -/
def c4El : Elem :=
  .mk { eid := 3, tag := "p", ownText := "hello",
        attrs := [("data-pb-node", "node-1")] } [] []

def c4Doc : Elem :=
  .mk { eid := 0, tag := "body" } [c4El] []

/-- Witness for C4: tier 1 resolves the marker selector and leaves the
document untouched. -/
theorem C4_witness :
    findElement c4Doc (Sel.marker "node-1") [] [] FrameworkType.vanilla = (some 3, c4Doc) :=
  (C4_findElement_tiers c4Doc (Sel.marker "node-1") [] [] FrameworkType.vanilla).1
    c4El (by rfl)

/-! ## Transform executors and orchestration (`src/content/transformer.ts`)

`requestAnimationFrame` callbacks are modelled as running immediately (the
loop awaits a 20 ms stagger between instructions, which spans a frame), and
`setTimeout` callbacks become pending events fired once the modelled clock
passes their due time.  Colour-string munging (`toRgba`) and the site-style
probe are outside the model: the accent colour and its translucent variant
enter as parameters, as does the `removeGrayedSections` setting read from
storage.  The FLIP translate distances come from layout geometry and are
modelled by a placeholder value; `injectStyles` and the digest-panel
injection are presentation-only and omitted. -/

inductive PendingEv where
  | collapseDone (eid : Nat)
  | reorderDone (eid : Nat)
deriving Repr, DecidableEq

/-- State threaded through the `applyTransforms` loop: the document, the
modelled clock (ms), the scheduled `setTimeout` callbacks, and the
found/missed counters. -/
structure ApplySt where
  doc : Elem
  time : Nat
  pending : List (Nat × PendingEv)
  found : Nat
  missed : Nat
deriving Repr

/-- Body of a fired `setTimeout` callback: the collapse executor finally
hides the element and sets `data-pb-collapsed`; the reorder executor clears
the FLIP transform/transition. -/
def applyEvent (doc : Elem) : PendingEv → Elem
  | .collapseDone eid =>
    mapData eid (fun d =>
      dSetAttr (dSetStyle d "display" "none") "data-pb-collapsed" "true") doc
  | .reorderDone eid =>
    mapData eid (fun d => dSetStyle (dSetStyle d "transform" "") "transition" "") doc

/-- Fires every scheduled callback due at or before `t` (due callbacks touch
distinct elements in the runs the loop produces, so schedule order stands in
for due order). -/
def fireDue (t : Nat) (doc : Elem) : List (Nat × PendingEv) → Elem × List (Nat × PendingEv)
  | [] => (doc, [])
  | (due, ev) :: rest =>
    if due ≤ t then fireDue t (applyEvent doc ev) rest
    else
      match fireDue t doc rest with
      | (doc2, keep) => (doc2, (due, ev) :: keep)

/-- `await delay(ms)`: the clock advances and due callbacks run. -/
def delayStep (ms : Nat) : ApplySt → ApplySt
  | ⟨doc, time, pending, found, missed⟩ =>
    match fireDue (time + ms) doc pending with
    | (doc2, keep) => ⟨doc2, time + ms, keep, found, missed⟩

/-- Runs every still-pending callback (the page at quiescence, once all
animation timeouts have fired). -/
def flushPendingAll : ApplySt → Elem
  | ⟨doc, _, pending, _, _⟩ => pending.foldl (fun dc p => applyEvent dc p.2) doc

/-! ### Executors -/

/-- The tags of `scaleFontSize`'s text-node regexp. -/
def TEXTUAL_TAGS : List String :=
  ["p", "h1", "h2", "h3", "h4", "h5", "h6", "span", "li", "td",
   "blockquote", "cite", "figcaption", "label", "dt", "dd"]

/-- `(x).toFixed(1)` for a value given in hundredths of a pixel. -/
def fixed1OfHundredths (h : Nat) : String :=
  let t := (h + 5) / 10
  natToStr (t / 10) ++ "." ++ natToStr (t % 10)

/-- `scaleFontSize`: bump the font of sufficiently relevant textual elements,
recording the original inline `fontSize`/`lineHeight` first.  (The
`multiplier === 1` early return is unreachable: every branch of the
threshold chain at `relevance ≥ 65` sets a multiplier above 1.) -/
def scaleFontSize (relevance : Int) (el : ElemData) : ElemData :=
  if relevance < 65 then el
  else if !(TEXTUAL_TAGS.contains el.tag) && !(strTrim el.ownText ≠ "") then el
  else
    let baseSize := if el.computedFontSize = 0 then 16 else el.computedFontSize
    let mult100 : Nat := if relevance ≥ 92 then 128 else if relevance ≥ 80 then 115 else 106
    let el1 := dSetAttr el "data-pb-original-font-size" ((alGet el.styles "fontSize").getD "")
    let el2 := dSetAttr el1 "data-pb-original-line-height" ((alGet el.styles "lineHeight").getD "")
    let el3 := dSetStyle el2 "fontSize" (fixed1OfHundredths (baseSize * mult100) ++ "px")
    let el4 := dSetStyle el3 "lineHeight" "1.5"
    dSetStyle el4 "transition" "font-size 300ms ease"

/-- `executeHighlight` (immediate mutations followed by the animation-frame
body), then `scaleFontSize`. -/
def executeHighlight (accent bg : String) (relevance : Int) (el : ElemData) : ElemData :=
  let el1 := dSetAttr el "data-pb-original-border" ((alGet el.styles "borderLeft").getD "")
  let el2 := dSetAttr el1 "data-pb-original-bg" ((alGet el.styles "backgroundColor").getD "")
  let el3 := dSetAttr el2 "data-pb-original-padding" ((alGet el.styles "paddingLeft").getD "")
  let el4 := dSetStyle el3 "transition" "all 300ms ease"
  let el5 := dSetStyle el4 "borderLeft" ("3px solid " ++ accent)
  let el6 := dSetStyle el5 "backgroundColor" bg
  let el7 := dSetStyle el6 "paddingLeft" (natToStr (el.computedPaddingLeft + 8) ++ "px")
  let el8 := dSetStyle el7 "borderRadius" "3px"
  let el9 := dSetStyle el8 "animation" "pb-pulse 400ms ease"
  scaleFontSize relevance el9

/-- `height > 2000 ? 280 : TIMING.COLLAPSE_DURATION`. -/
def collapseDuration (el : ElemData) : Nat :=
  if el.offsetHeight > 2000 then 280 else 220

/-- `executeCollapse`, up to the deferred timeout (which becomes a
`collapseDone` event `collapseDuration` ms later). -/
def executeCollapse (el : ElemData) : ElemData :=
  let el1 := dSetAttr el "data-pb-original-height" (natToStr el.offsetHeight ++ "px")
  let el2 := dSetAttr el1 "data-pb-original-overflow" ((alGet el.styles "overflow").getD "")
  let el3 := dSetAttr el2 "data-pb-original-max-height" ((alGet el.styles "maxHeight").getD "")
  let el4 := dSetStyle el3 "maxHeight" (natToStr el.offsetHeight ++ "px")
  let el5 := dSetStyle el4 "overflow" "hidden"
  let el6 := dSetStyle el5 "transition"
    ("max-height " ++ natToStr (collapseDuration el) ++ "ms ease-out, opacity "
      ++ natToStr (collapseDuration el) ++ "ms ease-out")
  let el7 := dSetStyle el6 "maxHeight" "0px"
  dSetStyle el7 "opacity" "0"

/-- `executeDim`. -/
def executeDim (el : ElemData) : ElemData :=
  let el1 := dSetAttr el "data-pb-original-opacity" ((alGet el.styles "opacity").getD "")
  let el2 := dSetAttr el1 "data-pb-original-pointer-events" ((alGet el.styles "pointerEvents").getD "")
  let el3 := dSetStyle el2 "transition" "opacity 300ms ease"
  let el4 := dSetStyle el3 "opacity" "0.12"
  dSetStyle el4 "pointerEvents" "none"

mutual
/-- `el.parentElement`'s identity: the nearest element whose light child list
holds `x`. -/
def parentEidOf (x : Nat) : Elem → Option Nat
  | .mk d cs _ =>
    if cs.any (fun c => c.dta.eid = x) then some d.eid
    else parentEidOfL x cs

def parentEidOfL (x : Nat) : List Elem → Option Nat
  | [] => none
  | c :: rest =>
    match parentEidOf x c with
    | some p => some p
    | none => parentEidOfL x rest
end

/-- `parent.insertBefore(el, ref)` for an `el` already in the tree: detach,
then re-insert before `ref` (inserting before itself is the DOM no-op). -/
def moveBefore (doc : Elem) (parentEid x refEid : Nat) : Elem :=
  if refEid = x then doc
  else
    match byEid doc x with
    | none => doc
    | some sub => insertBeforeIn parentEid (some refEid) sub (removeSubtree x doc)

/-- `parent.insertBefore(el, null)`: detach and append. -/
def moveToEnd (doc : Elem) (parentEid x : Nat) : Elem :=
  match byEid doc x with
  | none => doc
  | some sub => insertBeforeIn parentEid none sub (removeSubtree x doc)

/-- The FLIP styles set synchronously (`translate(dx, dy)` stands for the
layout-derived offsets). -/
def reorderStyles1 (d : ElemData) : ElemData :=
  dSetStyle (dSetStyle (dSetStyle d "transform" "translate(dx, dy)") "opacity" "0.5")
    "transition" "none"

/-- The FLIP styles set in the animation frame. -/
def reorderStyles2 (d : ElemData) : ElemData :=
  dSetStyle (dSetStyle (dSetStyle d
    "transition" "transform 500ms cubic-bezier(0.25, 0.46, 0.45, 0.94), opacity 250ms ease")
    "transform" "translate(0, 0)") "opacity" "1"

/-- `executeReorder`: bail without a parent or on fixed/sticky elements, move
per the requested position, apply the FLIP styles, and schedule their
clearing `REORDER_DURATION + 60` ms later. -/
def executeReorder (now : Nat) (doc : Elem) (el : Elem) (position : Option PosSpec) :
    Elem × List (Nat × PendingEv) :=
  match parentEidOf el.dta.eid doc with
  | none => (doc, [])
  | some pid =>
    if el.dta.computedPosition = "fixed" || el.dta.computedPosition = "sticky" then (doc, [])
    else
      let doc1 :=
        match position with
        | some .top =>
          match (byEid doc pid).bind (fun p => p.children.head?) with
          | some f => moveBefore doc pid el.dta.eid f.dta.eid
          | none => moveToEnd doc pid el.dta.eid
        | some (.above target) =>
          match querySel doc target with
          | some tEl =>
            match parentEidOf tEl.dta.eid doc with
            | some tpid => moveBefore doc tpid el.dta.eid tEl.dta.eid
            | none => doc
          | none => doc
        | _ => doc
      (mapData el.dta.eid (fun d => reorderStyles2 (reorderStyles1 d)) doc1,
        [(now + 560, .reorderDone el.dta.eid)])

/-- The injected badge element (`badgeEid` standing for the fresh DOM node's
identity), with its `cssText` styles followed by the animation-frame ones. -/
def mkBadge (badgeEid : Nat) (cls text : String) : Elem :=
  .mk (dSetStyle (dSetStyle (dSetStyle (dSetStyle (dSetStyle
        { eid := badgeEid, tag := "div", attrs := [("class", cls)], ownText := text }
        "opacity" "0") "transform" "translateY(-4px)")
        "transition" "opacity 250ms ease, transform 250ms ease")
        "opacity" "1") "transform" "translateY(0)") [] []

/-- `executeAnnotate`: with truthy text, insert the badge immediately before
the element in its parent (no parent, no insertion). -/
def executeAnnotate (badgeEid : Nat) (doc : Elem) (el : Elem)
    (ann : Option String) (badgeCls : Option String) : Elem :=
  match ann with
  | none => doc
  | some txt =>
    if txt = "" then doc
    else
      match parentEidOf el.dta.eid doc with
      | none => doc
      | some pid =>
        insertBeforeIn pid (some el.dta.eid)
          (mkBadge badgeEid (badgeCls.getD "pb-annotation-badge") txt) doc

/-- `hasCollapsedAncestor`: walk `parentElement` links looking for
`dataset.pbCollapsed === "true"`. -/
def hasCollapsedAncestor (doc : Elem) (el : Elem) : Bool :=
  match ancestorsOf el.dta.eid doc with
  | some ancs => ancs.any (fun a => decide (getAttr a "data-pb-collapsed" = some "true"))
  | none => false

/-! ### Ordering -/

/-- `positiveActions.has(action)`: 1 for the additive actions, 0 for the
subtractive ones. -/
def prioOf (t : TransformInstruction) : Nat :=
  match t.action with
  | .reorder | .highlight | .annotate => 1
  | _ => 0

/-- "`a` sorts no later than `b`" under the source's comparator: descending
priority, then descending relevance. -/
def tBefore (a b : TransformInstruction) : Prop :=
  prioOf b < prioOf a ∨ (prioOf a = prioOf b ∧ b.relevance ≤ a.relevance)

instance : DecidableRel tBefore := fun a b => by
  unfold tBefore; infer_instance

instance : IsTotal TransformInstruction tBefore :=
  ⟨by intro a b; unfold tBefore; omega⟩

instance : IsTrans TransformInstruction tBefore :=
  ⟨by intro a b c; unfold tBefore; omega⟩

/-- `[...response.transforms].sort(...)` — a stable sort by the comparator. -/
def sortTransforms (ts : List TransformInstruction) : List TransformInstruction :=
  List.insertionSort tBefore ts

/-! ### The application loop -/

/-- Action dispatch of one located instruction (`el` the located element,
`now` the clock after the stagger delay). -/
def dispatchAction (accent bg : String) (removeGrayed : Bool) (now : Nat)
    (doc : Elem) (el : Elem) (instr : TransformInstruction) :
    Elem × List (Nat × PendingEv) :=
  match instr.action with
  | .highlight => (mapData el.dta.eid (executeHighlight accent bg instr.relevance) doc, [])
  | .collapse =>
    (mapData el.dta.eid executeCollapse doc,
      [(now + collapseDuration el.dta, .collapseDone el.dta.eid)])
  | .reorder => executeReorder now doc el instr.position
  | .annotate => (doc, [])
  | .dim =>
    if removeGrayed then
      (mapData el.dta.eid executeCollapse doc,
        [(now + collapseDuration el.dta, .collapseDone el.dta.eid)])
    else (mapData el.dta.eid executeDim doc, [])

/-- One iteration of the `applyTransforms` loop: find, skip already-marked or
ancestor-collapsed elements, stagger, mark, dispatch. -/
def applyStep (selectorMap : List (Sel × SkeletonNode)) (fallbackMap : List (Sel × Sel))
    (framework : FrameworkType) (accent bg : String) (removeGrayed : Bool)
    (st : ApplySt) (instr : TransformInstruction) : ApplySt :=
  match st with
  | ⟨doc, time, pending, found, missed⟩ =>
    match findElement doc instr.selector selectorMap fallbackMap framework with
    | (none, doc1) => ⟨doc1, time, pending, found, missed + 1⟩
    | (some eid, doc1) =>
      match byEid doc1 eid with
      | none => ⟨doc1, time, pending, found, missed + 1⟩
      | some el =>
        if truthyAttr el "data-pb-transformed" then ⟨doc1, time, pending, found, missed⟩
        else if hasCollapsedAncestor doc1 el then ⟨doc1, time, pending, found, missed⟩
        else
          match delayStep 20 ⟨doc1, time, pending, found, missed⟩ with
          | ⟨doc2, t2, pend2, _, _⟩ =>
            let doc3 := setAttrById doc2 eid "data-pb-transformed" "true"
            let el3 := (byEid doc3 eid).getD el
            match dispatchAction accent bg removeGrayed t2 doc3 el3 instr with
            | (doc4, sched) => ⟨doc4, t2, pend2 ++ sched, found + 1, missed⟩

/-- `applyTransforms`: detect the framework, build the skeleton maps, sort
the instructions, and fold the loop body over them. -/
def applyTransforms (env : WindowEnv) (removeGrayed : Bool) (accent bg : String)
    (doc : Elem) (skeletonNodes : List SkeletonNode) (response : TransformResponse) :
    ApplySt :=
  let framework := detectFramework env doc
  let selectorMap := buildSelectorMap skeletonNodes []
  let fallbackMap := buildFallbackMap skeletonNodes []
  (sortTransforms response.transforms).foldl
    (applyStep selectorMap fallbackMap framework accent bg removeGrayed)
    ⟨doc, 0, [], 0, 0⟩

/-! ### Cleanup -/

/-- Class tokens of an element. -/
def classTokens (d : ElemData) : List String :=
  (wordsAux [] ((alGet d.attrs "class").getD "").data).map ofChars

/-- `.pb-annotation-badge, .pb-link-preview-badge` class match. -/
def isBadgeData (d : ElemData) : Bool :=
  (classTokens d).any (fun t => t = "pb-annotation-badge" || t = "pb-link-preview-badge")

def isBadgeElem (e : Elem) : Bool := isBadgeData e.dta

/-- One `if (dataset.X !== undefined) style.sk = dataset.X` restore line,
reading the pre-cleanup attribute list `a`. -/
def restoreOne (a : List (String × String)) (key sk : String) (d : ElemData) : ElemData :=
  match alGet a key with
  | some v => dSetStyle d sk v
  | none => d

/-- The `pbOriginalMaxHeight` restore block: max-height back, overflow back
(or cleared), inline display and opacity cleared. -/
def restoreMax (a : List (String × String)) (d : ElemData) : ElemData :=
  match alGet a "data-pb-original-max-height" with
  | some v =>
    dSetStyle (dSetStyle (dSetStyle (dSetStyle d "maxHeight" v)
      "overflow" ((alGet a "data-pb-original-overflow").getD ""))
      "display" "") "opacity" ""
  | none => d

/-- The style-restore lines of the cleanup loop body, in source order. -/
def restoreStyles (d : ElemData) : ElemData :=
  restoreMax d.attrs
    (restoreOne d.attrs "data-pb-original-line-height" "lineHeight"
      (restoreOne d.attrs "data-pb-original-font-size" "fontSize"
        (restoreOne d.attrs "data-pb-original-pointer-events" "pointerEvents"
          (restoreOne d.attrs "data-pb-original-opacity" "opacity"
            (restoreOne d.attrs "data-pb-original-padding" "paddingLeft"
              (restoreOne d.attrs "data-pb-original-bg" "backgroundColor"
                (restoreOne d.attrs "data-pb-original-border" "borderLeft" d)))))))

/-- Per-element body of the cleanup restore loop: restore each recorded
original, then drop every `data-pb*` attribute. -/
def cleanupData (d : ElemData) : ElemData :=
  { restoreStyles d with attrs := d.attrs.filter (fun kv => !(strStartsWith kv.1 "data-pb")) }

/-- Marker test of the cleanup query
`[data-pb-transformed], [data-pb-collapsed]`. -/
def hasPbMarker (d : ElemData) : Bool :=
  (alGet d.attrs "data-pb-transformed").isSome || (alGet d.attrs "data-pb-collapsed").isSome

/-- `document.getElementById('pb-digest')?.remove()`. -/
def removeDigest (doc1 : Elem) : Elem :=
  match querySel doc1 (Sel.byId "pb-digest") with
  | some e => removeSubtree e.dta.eid doc1
  | none => doc1

/-- `cleanupTransforms`: remove badges, remove the digest panel, restore and
strip every marked element, then drop the extractor's node stamps. -/
def cleanupTransforms (doc : Elem) : Elem :=
  mapAll (fun d => dDelAttr d "data-pb-node")
    (mapAll (fun d => if hasPbMarker d then cleanupData d else d)
      (removeDigest (removeMatching isBadgeElem doc)))

theorem prioOf_le_one (t : TransformInstruction) : prioOf t ≤ 1 := by
  rw [prioOf]
  split <;> omega

/-- Claim C6 — `applyTransforms` is the fold of the loop body over
`sortTransforms response.transforms`, and that list is a permutation of the
response's transforms in which additive instructions (reorder, highlight,
annotate — priority 1) all precede subtractive ones (collapse, dim —
priority 0), descending relevance within each priority group. -/
theorem C6_applyTransforms_order (ts : List TransformInstruction) :
    (sortTransforms ts).Perm ts ∧
    List.Pairwise (fun a b =>
      (prioOf b = 1 → prioOf a = 1) ∧ (prioOf a = prioOf b → b.relevance ≤ a.relevance))
      (sortTransforms ts) ∧
    (∀ env removeGrayed accent bg doc skeletonNodes summary intent digest,
      applyTransforms env removeGrayed accent bg doc skeletonNodes
        ⟨ts, summary, intent, digest⟩
        = (sortTransforms ts).foldl
            (applyStep (buildSelectorMap skeletonNodes []) (buildFallbackMap skeletonNodes [])
              (detectFramework env doc) accent bg removeGrayed)
            ⟨doc, 0, [], 0, 0⟩) := by
  refine ⟨List.perm_insertionSort tBefore ts, ?_, fun _ _ _ _ _ _ _ _ _ => rfl⟩
  have hs := List.sorted_insertionSort tBefore ts
  refine List.Pairwise.imp ?_ hs
  intro a b hab
  have ha := prioOf_le_one a
  have hb := prioOf_le_one b
  rw [tBefore] at hab
  constructor
  · intro h1; omega
  · intro he; omega
theorem alGet_alSet_ne (l : List (String × String)) (k v k' : String) (h : k' ≠ k) :
    alGet (alSet l k v) k' = alGet l k' := by
  induction l with
  | nil => rw [alSet, alGet, alGet, if_neg (fun he => h he.symm), alGet]
  | cons kv rest ih =>
    match kv with
    | (k0, v0) =>
      rw [alSet]
      split
      · next he =>
        subst he
        rw [alGet, if_neg (fun he2 => h he2.symm), alGet, if_neg (fun he2 => h he2.symm)]
      · rw [alGet, alGet]
        split
        · rfl
        · exact ih

theorem dta_mapData (y : Nat) (f : ElemData → ElemData) (e : Elem) :
    (mapData y f e).dta = if e.dta.eid = y then f e.dta else e.dta := by
  match e with
  | .mk d cs sh => rw [mapData]; rfl

/-- Re-stamping a found element touches no style and no attribute other than
the `data-pb-node` marker, on any element of the document. -/
theorem restampMarker_preserves (doc : Elem) (sel : Sel) (el2 : Elem) (y : Nat) (e' : Elem)
    (hb : byEid doc y = some e') :
    ∃ e'', byEid (restampMarker doc sel el2) y = some e'' ∧
      e''.dta.styles = e'.dta.styles ∧
      ∀ k, k ≠ "data-pb-node" → alGet e''.dta.attrs k = alGet e'.dta.attrs k := by
  rcases hm : markerIdOf sel with _ | nid
  · rw [restampMarker, hm]
    exact ⟨e', hb, rfl, fun _ _ => rfl⟩
  · have hre : restampMarker doc sel el2
        = setAttrById doc el2.dta.eid "data-pb-node" nid := by
      rw [restampMarker, hm]
    rw [hre, setAttrById,
      byEid_mapData el2.dta.eid (fun d => dSetAttr d "data-pb-node" nid) (fun d => rfl) doc y,
      hb, Option.map_some']
    refine ⟨_, rfl, ?_, ?_⟩
    · rw [dta_mapData]
      split
      · rfl
      · rfl
    · intro k hk
      rw [dta_mapData]
      split
      · exact alGet_alSet_ne _ _ _ _ hk
      · rfl

set_option maxHeartbeats 1000000 in
/-- Claim C5 (amended) — the loop skips exactly the elements whose markers
are present *at processing time*: an element already carrying a truthy
`data-pb-transformed`, or one of whose ancestors already carries
`data-pb-collapsed="true"`, is left untouched (beyond the tier-2/3
re-stamp, which alters only `data-pb-node`) and the counters do not move.
The collapsed marker is only set by the collapse executor's deferred
timeout, and additive edits sort first, so a descendant mark processed
within the stagger window after its parent's remove is *not* skipped
(see the counterexample). -/
theorem C5_applyStep_skip (selectorMap : List (Sel × SkeletonNode))
    (fallbackMap : List (Sel × Sel)) (framework : FrameworkType)
    (accent bg : String) (removeGrayed : Bool) (st : ApplySt)
    (instr : TransformInstruction) (eid : Nat) (doc1 : Elem) (el : Elem) :
    (findElement st.doc instr.selector selectorMap fallbackMap framework = (some eid, doc1) →
     byEid doc1 eid = some el →
     truthyAttr el "data-pb-transformed" = true →
     applyStep selectorMap fallbackMap framework accent bg removeGrayed st instr
       = ⟨doc1, st.time, st.pending, st.found, st.missed⟩) ∧
    (findElement st.doc instr.selector selectorMap fallbackMap framework = (some eid, doc1) →
     byEid doc1 eid = some el →
     truthyAttr el "data-pb-transformed" = false →
     hasCollapsedAncestor doc1 el = true →
     applyStep selectorMap fallbackMap framework accent bg removeGrayed st instr
       = ⟨doc1, st.time, st.pending, st.found, st.missed⟩) ∧
    (findElement st.doc instr.selector selectorMap fallbackMap framework = (some eid, doc1) →
     doc1 = st.doc ∨ ∃ el2, doc1 = restampMarker st.doc instr.selector el2) ∧
    (∀ sel el2 y e', byEid st.doc y = some e' →
      ∃ e'', byEid (restampMarker st.doc sel el2) y = some e'' ∧
        e''.dta.styles = e'.dta.styles ∧
        ∀ k, k ≠ "data-pb-node" → alGet e''.dta.attrs k = alGet e'.dta.attrs k) := by
  obtain ⟨doc, time, pending, found, missed⟩ := st
  refine ⟨?_, ?_, ?_, fun sel el2 y e' hb => restampMarker_preserves doc sel el2 y e' hb⟩
  · intro h1 h2 h3
    rw [applyStep, h1]
    dsimp only
    rw [h2]
    dsimp only
    rw [if_pos h3]
  · intro h1 h2 h3 h4
    rw [applyStep, h1]
    dsimp only
    rw [h2]
    dsimp only
    rw [if_neg (by rw [h3]; exact Bool.false_ne_true), if_pos h4]
  · intro h1
    dsimp only at h1
    rw [findElement] at h1
    rcases hq : querySel doc instr.selector with _ | elq
    · rw [hq] at h1
      dsimp only at h1
      by_cases hfw : framework ≠ FrameworkType.next
      · rw [if_pos hfw] at h1
        rcases h2 : tier2Lookup doc fallbackMap instr.selector with _ | el2
        · rw [h2] at h1
          dsimp only at h1
          rcases h3 : tier3Lookup doc selectorMap instr.selector with _ | el3
          · rw [h3] at h1
            exact Or.inl (congrArg Prod.snd h1).symm
          · rw [h3] at h1
            exact Or.inr ⟨el3, (congrArg Prod.snd h1).symm⟩
        · rw [h2] at h1
          exact Or.inr ⟨el2, (congrArg Prod.snd h1).symm⟩
      · rw [if_neg hfw] at h1
        rcases h3 : tier3Lookup doc selectorMap instr.selector with _ | el3
        · rw [h3] at h1
          dsimp only at h1
          rcases h2 : tier2Lookup doc fallbackMap instr.selector with _ | el2
          · rw [h2] at h1
            exact Or.inl (congrArg Prod.snd h1).symm
          · rw [h2] at h1
            exact Or.inr ⟨el2, (congrArg Prod.snd h1).symm⟩
        · rw [h3] at h1
          exact Or.inr ⟨el3, (congrArg Prod.snd h1).symm⟩
    · rw [hq] at h1
      exact Or.inl (congrArg Prod.snd h1).symm
/-- Already-marked paragraph for the C5 witness. -/
def c5wP : Elem :=
  .mk { eid := 1, tag := "p", ownText := "done",
        attrs := [("data-pb-node", "node-9"), ("data-pb-transformed", "true")] } [] []

def c5wDoc : Elem := .mk { eid := 0, tag := "body" } [c5wP] []

def c5wInstr : TransformInstruction :=
  { action := .highlight, selector := .marker "node-9", relevance := 50 }

/-- Witness for C5: the marked paragraph is skipped and the state does not
move. -/
theorem C5_witness :
    applyStep [] [] FrameworkType.vanilla "red" "bg" true ⟨c5wDoc, 0, [], 0, 0⟩ c5wInstr
      = ⟨c5wDoc, 0, [], 0, 0⟩ :=
  (C5_applyStep_skip [] [] FrameworkType.vanilla "red" "bg" true ⟨c5wDoc, 0, [], 0, 0⟩
    c5wInstr 1 c5wDoc c5wP).1 (by rfl) (by rfl) (by rfl)

/-- Child paragraph carrying a mark edit. -/
def c5C : Elem :=
  .mk { eid := 2, tag := "p", ownText := "keep me",
        attrs := [("data-pb-node", "node-2")] } [] []

/-- Parent section carrying a remove edit. -/
def c5P : Elem :=
  .mk { eid := 1, tag := "section", attrs := [("data-pb-node", "node-1")] } [c5C] []

def c5Doc : Elem := .mk { eid := 0, tag := "body" } [c5P] []

def c5col : TransformInstruction :=
  { action := .collapse, selector := .marker "node-1", relevance := 90 }

def c5hl : TransformInstruction :=
  { action := .highlight, selector := .marker "node-2", relevance := 50 }

set_option maxRecDepth 4000 in
/-- Claim C5 counterexample: a remove edit on the parent (relevance 90) and a
mark edit on its child (relevance 50).  The loop reorders additive edits
first and the parent's `data-pb-collapsed` marker is only set by the
deferred timeout, so the child's mark is applied — it ends up marked and
carrying the highlight border, not skipped as ancestor-collapsed. -/
theorem C5_counterexample :
    sortTransforms [c5col, c5hl] = [c5hl, c5col] ∧
    (byEid (applyTransforms {} true "red" "rgba(1, 2, 3, 0.06)" c5Doc []
        ⟨[c5col, c5hl], "", "", none⟩).doc 2).map
      (fun e => (truthyAttr e "data-pb-transformed", getStyle e "borderLeft"))
      = some (true, "3px solid red") := by
  exact ⟨rfl, rfl⟩
mutual
theorem byEid_insertBefore (pid : Nat) (ref : Option Nat) (sub : Elem) :
    ∀ e : Elem, byEid (insertBeforeIn pid ref sub e) pid
      = Option.map (fun q => Elem.mk q.dta (insertIntoList sub ref q.children) q.shadowChildren)
        (byEid e pid) := by
  intro e
  match e with
  | .mk d cs sh =>
    by_cases hx : d.eid = pid
    · rw [insertBeforeIn, if_pos hx, byEid, if_pos hx, byEid, if_pos hx, Option.map_some']
      rfl
    · rw [insertBeforeIn, if_neg hx, byEid, if_neg hx, byEid, if_neg hx]
      exact byEidL_insertBefore pid ref sub cs

theorem byEidL_insertBefore (pid : Nat) (ref : Option Nat) (sub : Elem) :
    ∀ cs : List Elem, byEidL pid (insertBeforeInL pid ref sub cs)
      = Option.map (fun q => Elem.mk q.dta (insertIntoList sub ref q.children) q.shadowChildren)
        (byEidL pid cs) := by
  intro cs
  match cs with
  | [] => rfl
  | c :: rest =>
    rw [insertBeforeInL, byEidL, byEidL, byEid_insertBefore pid ref sub c]
    rcases hc : byEid c pid with _ | r
    · rw [Option.map_none']
      exact byEidL_insertBefore pid ref sub rest
    · rw [Option.map_some']
end

theorem insertIntoList_split (sub el : Elem) : ∀ (pre post : List Elem),
    (∀ c ∈ pre, c.dta.eid ≠ el.dta.eid) →
    insertIntoList sub (some el.dta.eid) (pre ++ el :: post)
      = pre ++ sub :: el :: post := by
  intro pre
  induction pre with
  | nil =>
    intro post _
    rw [List.nil_append, insertIntoList, if_pos rfl, List.nil_append]
  | cons c rest ih =>
    intro post hpre
    rw [List.cons_append, insertIntoList,
      if_neg (by simpa using (hpre c (List.mem_cons_self c rest)).symm),
      ih post (fun c2 hc2 => hpre c2 (List.mem_cons_of_mem c hc2)), List.cons_append]

mutual
theorem byEid_allElems_sub (x : Nat) :
    ∀ (e q : Elem), byEid e x = some q → ∀ z ∈ allElems q, z ∈ allElems e := by
  intro e q hq z hz
  match e with
  | .mk d cs sh =>
    rw [byEid] at hq
    split at hq
    · cases hq
      exact hz
    · rw [allElems]
      exact List.mem_cons_of_mem _ (byEidL_allElems_sub x cs q hq z hz)

theorem byEidL_allElems_sub (x : Nat) :
    ∀ (cs : List Elem) (q : Elem), byEidL x cs = some q → ∀ z ∈ allElems q, z ∈ allElemsL cs := by
  intro cs q hq z hz
  match cs with
  | [] => exact absurd hq (by rw [byEidL]; exact Option.noConfusion)
  | c :: rest =>
    rw [byEidL] at hq
    rw [allElemsL]
    rcases hc : byEid c x with _ | r
    · rw [hc] at hq
      exact List.mem_append_right _ (byEidL_allElems_sub x rest q hq z hz)
    · rw [hc] at hq
      cases hq
      exact List.mem_append_left _ (byEid_allElems_sub x c q hc z hz)
end

theorem allElemsL_mem_sub {z c : Elem} : ∀ {cs : List Elem},
    c ∈ cs → z ∈ allElems c → z ∈ allElemsL cs := by
  intro cs hc hz
  induction cs with
  | nil => exact absurd hc (List.not_mem_nil c)
  | cons c0 rest ih =>
    rw [allElemsL]
    rcases List.mem_cons.mp hc with he | hm
    · subst he
      exact List.mem_append_left _ hz
    · exact List.mem_append_right _ (ih hm)

/-- Claim C8 (amended) — `executeAnnotate` itself, with truthy text and a
parented element, inserts the badge immediately before the element in its
parent's child list, as a sibling and never a descendant (the element's
subtree appears unchanged after the badge).  The v2 orchestrator, however,
never calls it: see the counterexample. -/
theorem C8_executeAnnotate_inserts_before (doc el p : Elem) (badgeEid pid : Nat)
    (txt : String) (cls : Option String) (pre post : List Elem)
    (htxt : txt ≠ "")
    (hpid : parentEidOf el.dta.eid doc = some pid)
    (hp : byEid doc pid = some p)
    (hsplit : p.children = pre ++ el :: post)
    (hpre : ∀ c ∈ pre, c.dta.eid ≠ el.dta.eid)
    (hfresh : badgeEid ∉ docEids doc) :
    (∃ q, byEid (executeAnnotate badgeEid doc el (some txt) cls) pid = some q ∧
      q.dta = p.dta ∧
      q.children = pre ++ mkBadge badgeEid (cls.getD "pb-annotation-badge") txt :: el :: post) ∧
    (∀ z ∈ allElems el, z.dta.eid ≠ badgeEid) ∧
    (mkBadge badgeEid (cls.getD "pb-annotation-badge") txt).dta.ownText = txt := by
  refine ⟨?_, ?_, rfl⟩
  · have he : executeAnnotate badgeEid doc el (some txt) cls
        = insertBeforeIn pid (some el.dta.eid)
            (mkBadge badgeEid (cls.getD "pb-annotation-badge") txt) doc := by
      rw [executeAnnotate, if_neg htxt, hpid]
    obtain ⟨dp, cps, shp⟩ := p
    have hsplit2 : cps = pre ++ el :: post := hsplit
    rw [he, byEid_insertBefore, hp, Option.map_some']
    refine ⟨_, rfl, rfl, ?_⟩
    dsimp only [Elem.children]
    rw [hsplit2, insertIntoList_split _ _ _ _ hpre]
  · intro z hz
    have hel : el ∈ p.children := by
      rw [hsplit]
      exact List.mem_append_right _ (List.mem_cons_self _ _)
    have hzp : z ∈ allElems p := by
      match p, hel with
      | .mk dp cps shp, hel =>
        rw [allElems]
        exact List.mem_cons_of_mem _ (allElemsL_mem_sub hel hz)
    have hzd : z ∈ allElems doc := byEid_allElems_sub pid doc p hp z hzp
    intro hbad
    exact hfresh (hbad ▸ List.mem_map_of_mem (fun e => e.dta.eid) hzd)
/-- The jobs link of the C8 witness. -/
def c8Link : Elem :=
  .mk { eid := 1, tag := "a", ownText := "Jobs",
        attrs := [("href", "/jobs")] } [] []

def c8Doc : Elem := .mk { eid := 0, tag := "body" } [c8Link] []

/-- Witness for C8: on a single-link document the badge lands immediately
before the link among the body's children, carries the supplied text, and
shares no identity with the link's subtree. -/
theorem C8_witness :
    (∃ q, byEid (executeAnnotate 5 c8Doc c8Link (some "apply here") none) 0 = some q ∧
      q.dta = c8Doc.dta ∧
      q.children = [] ++ mkBadge 5 ((none : Option String).getD "pb-annotation-badge")
        "apply here" :: c8Link :: []) ∧
    (∀ z ∈ allElems c8Link, z.dta.eid ≠ 5) ∧
    (mkBadge 5 ((none : Option String).getD "pb-annotation-badge") "apply here").dta.ownText
      = "apply here" :=
  C8_executeAnnotate_inserts_before c8Doc c8Link c8Doc 5 0 "apply here" none [] []
    (by decide) (by rfl) (by rfl) (by rfl)
    (fun c hc => absurd hc (List.not_mem_nil c)) (by decide)

/-- Annotated link for the C8 counterexample. -/
def c8aLink : Elem :=
  .mk { eid := 1, tag := "a", ownText := "Jobs",
        attrs := [("href", "/jobs"), ("data-pb-node", "node-1")] } [] []

def c8aDoc : Elem := .mk { eid := 0, tag := "body" } [c8aLink] []

def c8aInstr : TransformInstruction :=
  { action := .annotate, selector := .marker "node-1",
    annotationText := some "apply here", relevance := 80 }

set_option maxRecDepth 4000 in
/-- Claim C8 counterexample: the v2 orchestrator's `annotate` case is a
no-op, so an applied label edit with supplied text on a located element
(found = 1) injects no badge element anywhere — the document keeps exactly
its two original elements and none carries a badge class. -/
theorem C8_counterexample :
    (applyTransforms {} true "red" "bg" c8aDoc [] ⟨[c8aInstr], "", "", none⟩).found = 1 ∧
    (allElems (applyTransforms {} true "red" "bg" c8aDoc []
        ⟨[c8aInstr], "", "", none⟩).doc).length = 2 ∧
    (allElems (applyTransforms {} true "red" "bg" c8aDoc []
        ⟨[c8aInstr], "", "", none⟩).doc).all (fun e => !(isBadgeElem e)) = true := by
  exact ⟨rfl, rfl, rfl⟩
theorem alGet_alDel_ne (l : List (String × String)) (k k' : String) (h : k' ≠ k) :
    alGet (alDel l k) k' = alGet l k' := by
  induction l with
  | nil => rfl
  | cons kv rest ih =>
    match kv with
    | (k0, v0) =>
      rw [alDel]
      split
      · next he =>
        subst he
        rw [ih, alGet, if_neg (fun he2 => h he2.symm)]
      · rw [alGet, alGet]
        split
        · rfl
        · exact ih

theorem alGet_filter_neg (l : List (String × String)) (q : String → Bool) (k : String)
    (h : q k = false) : alGet (l.filter (fun kv => q kv.1)) k = none := by
  induction l with
  | nil => rfl
  | cons kv rest ih =>
    match kv with
    | (k0, v0) =>
      rw [List.filter_cons]
      split
      · next hq0 =>
        rw [alGet]
        split
        · next he => rw [he] at hq0; simp [h] at hq0
        · exact ih
      · exact ih

theorem alGet_filter_pos (l : List (String × String)) (q : String → Bool) (k : String)
    (h : q k = true) : alGet (l.filter (fun kv => q kv.1)) k = alGet l k := by
  induction l with
  | nil => rfl
  | cons kv rest ih =>
    match kv with
    | (k0, v0) =>
      rw [List.filter_cons, alGet]
      split
      · next hq0 =>
        rw [alGet]
        split
        · rfl
        · exact ih
      · next hq0 =>
        split
        · next he => rw [he] at hq0; simp [h] at hq0
        · exact ih

theorem restoreOne_attrs (a : List (String × String)) (key sk : String) (d : ElemData) :
    (restoreOne a key sk d).attrs = d.attrs := by
  rw [restoreOne]
  split <;> rfl

theorem restoreOne_styles_ne (a : List (String × String)) (key sk : String) (d : ElemData)
    (k : String) (h : sk ≠ k) :
    alGet (restoreOne a key sk d).styles k = alGet d.styles k := by
  rw [restoreOne]
  split
  · exact alGet_alSet_ne _ _ _ _ (Ne.symm h)
  · rfl

theorem restoreOne_self (a : List (String × String)) (key sk : String) (d : ElemData)
    (v : String) (h : alGet a key = some v) :
    alGet (restoreOne a key sk d).styles sk = some v := by
  rw [restoreOne, h]
  exact alGet_alSet_self _ _ _

theorem restoreMax_attrs (a : List (String × String)) (d : ElemData) :
    (restoreMax a d).attrs = d.attrs := by
  rw [restoreMax]
  split <;> rfl

theorem restoreMax_styles_ne (a : List (String × String)) (d : ElemData) (k : String)
    (h1 : k ≠ "maxHeight") (h2 : k ≠ "overflow") (h3 : k ≠ "display") (h4 : k ≠ "opacity") :
    alGet (restoreMax a d).styles k = alGet d.styles k := by
  rw [restoreMax]
  split
  · simp only [dSetStyle]
    rw [alGet_alSet_ne _ _ _ _ h4, alGet_alSet_ne _ _ _ _ h3,
      alGet_alSet_ne _ _ _ _ h2, alGet_alSet_ne _ _ _ _ h1]
  · rfl

theorem restoreMax_none (a : List (String × String)) (d : ElemData)
    (h : alGet a "data-pb-original-max-height" = none) : restoreMax a d = d := by
  rw [restoreMax, h]

theorem restoreMax_self (a : List (String × String)) (d : ElemData) (v : String)
    (h : alGet a "data-pb-original-max-height" = some v) :
    alGet (restoreMax a d).styles "maxHeight" = some v ∧
    alGet (restoreMax a d).styles "overflow"
      = some ((alGet a "data-pb-original-overflow").getD "") ∧
    alGet (restoreMax a d).styles "display" = some "" ∧
    alGet (restoreMax a d).styles "opacity" = some "" := by
  rw [restoreMax, h]
  simp only [dSetStyle]
  refine ⟨?_, ?_, ?_, ?_⟩
  · rw [alGet_alSet_ne _ _ _ _ (by decide), alGet_alSet_ne _ _ _ _ (by decide),
      alGet_alSet_ne _ _ _ _ (by decide)]
    exact alGet_alSet_self _ _ _
  · rw [alGet_alSet_ne _ _ _ _ (by decide), alGet_alSet_ne _ _ _ _ (by decide)]
    exact alGet_alSet_self _ _ _
  · rw [alGet_alSet_ne _ _ _ _ (by decide)]
    exact alGet_alSet_self _ _ _
  · exact alGet_alSet_self _ _ _

theorem cleanupData_attrs (d : ElemData) :
    (cleanupData d).attrs = d.attrs.filter (fun kv => !(strStartsWith kv.1 "data-pb")) := rfl

theorem cleanupData_styles (d : ElemData) :
    (cleanupData d).styles = (restoreStyles d).styles := rfl

theorem children_mapAll (f : ElemData → ElemData) (e : Elem) :
    (mapAll f e).children = mapAllL f e.children := by
  match e with
  | .mk d cs sh => rw [mapAll]; rfl

mutual
theorem removeSubtree_dta (x : Nat) : ∀ (e : Elem),
    ∀ z ∈ allElems (removeSubtree x e), ∃ z0 ∈ allElems e, z.dta = z0.dta := by
  intro e z hz
  match e with
  | .mk d cs sh =>
    rw [removeSubtree, allElems] at hz
    rcases List.mem_cons.mp hz with hz | hz
    · exact ⟨.mk d cs sh, by rw [allElems]; exact List.mem_cons_self _ _, by rw [hz]; rfl⟩
    · obtain ⟨z0, hm, hd⟩ := removeSubtreeL_dta x cs z hz
      exact ⟨z0, by rw [allElems]; exact List.mem_cons_of_mem _ hm, hd⟩

theorem removeSubtreeL_dta (x : Nat) : ∀ (cs : List Elem),
    ∀ z ∈ allElemsL (removeSubtreeL x cs), ∃ z0 ∈ allElemsL cs, z.dta = z0.dta := by
  intro cs z hz
  match cs with
  | [] => exact absurd hz (by rw [removeSubtreeL, allElemsL]; exact List.not_mem_nil z)
  | c :: rest =>
    rw [removeSubtreeL] at hz
    split at hz
    · obtain ⟨z0, hm, hd⟩ := removeSubtreeL_dta x rest z hz
      exact ⟨z0, by rw [allElemsL]; exact List.mem_append_right _ hm, hd⟩
    · rw [allElemsL] at hz
      rcases List.mem_append.mp hz with hz | hz
      · obtain ⟨z0, hm, hd⟩ := removeSubtree_dta x c z hz
        exact ⟨z0, by rw [allElemsL]; exact List.mem_append_left _ hm, hd⟩
      · obtain ⟨z0, hm, hd⟩ := removeSubtreeL_dta x rest z hz
        exact ⟨z0, by rw [allElemsL]; exact List.mem_append_right _ hm, hd⟩
end

mutual
theorem removeMatching_cleanN : ∀ (e : Elem), isBadgeData e.dta = false →
    ∀ z ∈ allElems (removeMatching isBadgeElem e), isBadgeData z.dta = false := by
  intro e he z hz
  match e with
  | .mk d cs sh =>
    rw [removeMatching, allElems] at hz
    rcases List.mem_cons.mp hz with hz | hz
    · rw [hz]
      exact he
    · exact removeMatching_cleanL cs z hz

theorem removeMatching_cleanL : ∀ (cs : List Elem),
    ∀ z ∈ allElemsL (removeMatchingL isBadgeElem cs), isBadgeData z.dta = false := by
  intro cs z hz
  match cs with
  | [] => exact absurd hz (by rw [removeMatchingL, allElemsL]; exact List.not_mem_nil z)
  | c :: rest =>
    rw [removeMatchingL] at hz
    split at hz
    · exact removeMatching_cleanL rest z hz
    · next hc =>
      rw [allElemsL] at hz
      rcases List.mem_append.mp hz with hz | hz
      · exact removeMatching_cleanN c (by rw [isBadgeElem] at hc; simpa using hc) z hz
      · exact removeMatching_cleanL rest z hz
end

theorem isBadgeData_congr (d d' : ElemData)
    (h : alGet d.attrs "class" = alGet d'.attrs "class") :
    isBadgeData d = isBadgeData d' := by
  rw [isBadgeData, isBadgeData, classTokens, classTokens, h]
/-- Claim C1 (amended) — the restore pass strips the three marker attributes
everywhere and in fact every `data-pb*` attribute of marked elements,
removes every badge element, and puts back exactly the recorded originals:
border-left, background, padding-left, opacity (unless the max-height block
overrides it), pointer-events, font-size, line-height, and the collapse
block (max-height, overflow, cleared display/opacity).  DOM position,
border-radius, animation and the lingering transition are not restored
(see the counterexample). -/
theorem C1_cleanupTransforms_restores (doc : Elem) (d : ElemData) :
    (∀ e ∈ allElems (cleanupTransforms doc),
      getAttr e "data-pb-node" = none ∧ getAttr e "data-pb-transformed" = none ∧
      getAttr e "data-pb-collapsed" = none) ∧
    (∀ e ∈ allElemsL (cleanupTransforms doc).children, isBadgeData e.dta = false) ∧
    (∀ v, alGet d.attrs "data-pb-original-border" = some v →
      alGet (cleanupData d).styles "borderLeft" = some v) ∧
    (∀ v, alGet d.attrs "data-pb-original-bg" = some v →
      alGet (cleanupData d).styles "backgroundColor" = some v) ∧
    (∀ v, alGet d.attrs "data-pb-original-padding" = some v →
      alGet (cleanupData d).styles "paddingLeft" = some v) ∧
    (∀ v, alGet d.attrs "data-pb-original-opacity" = some v →
      alGet d.attrs "data-pb-original-max-height" = none →
      alGet (cleanupData d).styles "opacity" = some v) ∧
    (∀ v, alGet d.attrs "data-pb-original-pointer-events" = some v →
      alGet (cleanupData d).styles "pointerEvents" = some v) ∧
    (∀ v, alGet d.attrs "data-pb-original-font-size" = some v →
      alGet (cleanupData d).styles "fontSize" = some v) ∧
    (∀ v, alGet d.attrs "data-pb-original-line-height" = some v →
      alGet (cleanupData d).styles "lineHeight" = some v) ∧
    (∀ v, alGet d.attrs "data-pb-original-max-height" = some v →
      alGet (cleanupData d).styles "maxHeight" = some v ∧
      alGet (cleanupData d).styles "overflow"
        = some ((alGet d.attrs "data-pb-original-overflow").getD "") ∧
      alGet (cleanupData d).styles "display" = some "" ∧
      alGet (cleanupData d).styles "opacity" = some "") := by
  refine ⟨?_, ?_, ?_, ?_, ?_, ?_, ?_, ?_, ?_, ?_⟩
  · intro e he
    rw [cleanupTransforms] at he
    obtain ⟨e1, he1, hd1⟩ := mapAll_dta _ _ e he
    obtain ⟨e0, he0, hd0⟩ := mapAll_dta _ _ e1 he1
    refine ⟨?_, ?_, ?_⟩
    · rw [getAttr, hd1]
      simp only [dDelAttr]
      exact alGet_alDel _ _
    · rw [getAttr, hd1]
      simp only [dDelAttr]
      rw [alGet_alDel_ne _ _ _ (by decide), hd0]
      by_cases hm : hasPbMarker e0.dta
      · rw [if_pos hm, cleanupData_attrs]
        exact alGet_filter_neg _ (fun x => !(strStartsWith x "data-pb")) _ (by decide)
      · rw [if_neg hm]
        rcases ho : alGet e0.dta.attrs "data-pb-transformed" with _ | w
        · rfl
        · exact absurd (by rw [hasPbMarker, ho]; rfl) hm
    · rw [getAttr, hd1]
      simp only [dDelAttr]
      rw [alGet_alDel_ne _ _ _ (by decide), hd0]
      by_cases hm : hasPbMarker e0.dta
      · rw [if_pos hm, cleanupData_attrs]
        exact alGet_filter_neg _ (fun x => !(strStartsWith x "data-pb")) _ (by decide)
      · rw [if_neg hm]
        rcases ho : alGet e0.dta.attrs "data-pb-collapsed" with _ | w
        · rfl
        · refine absurd ?_ hm
          rw [hasPbMarker, ho]
          rcases alGet e0.dta.attrs "data-pb-transformed" with _ | w2 <;> rfl
  · intro e he
    obtain ⟨dd, dcs, dsh⟩ := doc
    rw [cleanupTransforms, children_mapAll, children_mapAll] at he
    obtain ⟨e1, he1, hd1⟩ := mapAllL_dta _ _ e he
    obtain ⟨e0, he0, hd0⟩ := mapAllL_dta _ _ e1 he1
    have hcls : alGet e.dta.attrs "class" = alGet e0.dta.attrs "class" := by
      rw [hd1]
      simp only [dDelAttr]
      rw [alGet_alDel_ne _ _ _ (by decide), hd0]
      by_cases hm : hasPbMarker e0.dta
      · rw [if_pos hm, cleanupData_attrs]
        exact alGet_filter_pos _ (fun x => !(strStartsWith x "data-pb")) _ (by decide)
      · rw [if_neg hm]
    rw [isBadgeData_congr _ _ hcls]
    rcases hq : querySel (removeMatching isBadgeElem (.mk dd dcs dsh)) (Sel.byId "pb-digest")
      with _ | ex
    · rw [removeDigest, hq] at he0
      dsimp only at he0
      rw [removeMatching] at he0
      dsimp only [Elem.children] at he0
      exact removeMatching_cleanL dcs e0 he0
    · rw [removeDigest, hq] at he0
      dsimp only at he0
      rw [removeMatching, removeSubtree] at he0
      dsimp only [Elem.children] at he0
      obtain ⟨z0, hz0, hzd⟩ := removeSubtreeL_dta ex.dta.eid _ e0 he0
      rw [hzd]
      exact removeMatching_cleanL dcs z0 hz0
  · intro v hv
    rw [cleanupData_styles, restoreStyles,
      restoreMax_styles_ne _ _ _ (by decide) (by decide) (by decide) (by decide),
      restoreOne_styles_ne _ _ _ _ _ (by decide), restoreOne_styles_ne _ _ _ _ _ (by decide),
      restoreOne_styles_ne _ _ _ _ _ (by decide), restoreOne_styles_ne _ _ _ _ _ (by decide),
      restoreOne_styles_ne _ _ _ _ _ (by decide), restoreOne_styles_ne _ _ _ _ _ (by decide)]
    exact restoreOne_self _ _ _ _ _ hv
  · intro v hv
    rw [cleanupData_styles, restoreStyles,
      restoreMax_styles_ne _ _ _ (by decide) (by decide) (by decide) (by decide),
      restoreOne_styles_ne _ _ _ _ _ (by decide), restoreOne_styles_ne _ _ _ _ _ (by decide),
      restoreOne_styles_ne _ _ _ _ _ (by decide), restoreOne_styles_ne _ _ _ _ _ (by decide),
      restoreOne_styles_ne _ _ _ _ _ (by decide)]
    exact restoreOne_self _ _ _ _ _ hv
  · intro v hv
    rw [cleanupData_styles, restoreStyles,
      restoreMax_styles_ne _ _ _ (by decide) (by decide) (by decide) (by decide),
      restoreOne_styles_ne _ _ _ _ _ (by decide), restoreOne_styles_ne _ _ _ _ _ (by decide),
      restoreOne_styles_ne _ _ _ _ _ (by decide), restoreOne_styles_ne _ _ _ _ _ (by decide)]
    exact restoreOne_self _ _ _ _ _ hv
  · intro v hv hnone
    rw [cleanupData_styles, restoreStyles, restoreMax_none _ _ hnone,
      restoreOne_styles_ne _ _ _ _ _ (by decide), restoreOne_styles_ne _ _ _ _ _ (by decide),
      restoreOne_styles_ne _ _ _ _ _ (by decide)]
    exact restoreOne_self _ _ _ _ _ hv
  · intro v hv
    rw [cleanupData_styles, restoreStyles,
      restoreMax_styles_ne _ _ _ (by decide) (by decide) (by decide) (by decide),
      restoreOne_styles_ne _ _ _ _ _ (by decide), restoreOne_styles_ne _ _ _ _ _ (by decide)]
    exact restoreOne_self _ _ _ _ _ hv
  · intro v hv
    rw [cleanupData_styles, restoreStyles,
      restoreMax_styles_ne _ _ _ (by decide) (by decide) (by decide) (by decide),
      restoreOne_styles_ne _ _ _ _ _ (by decide)]
    exact restoreOne_self _ _ _ _ _ hv
  · intro v hv
    rw [cleanupData_styles, restoreStyles,
      restoreMax_styles_ne _ _ _ (by decide) (by decide) (by decide) (by decide)]
    exact restoreOne_self _ _ _ _ _ hv
  · intro v hv
    rw [cleanupData_styles, restoreStyles]
    exact restoreMax_self _ _ _ hv
/-- Marked paragraph with a recorded original border, for the C1 witness. -/
def c1wData : ElemData :=
  { eid := 7, tag := "p",
    attrs := [("data-pb-transformed", "true"), ("data-pb-original-border", "1px solid black")],
    styles := [("borderLeft", "3px solid red")] }

def c1wDoc : Elem := .mk { eid := 0, tag := "body" } [.mk c1wData [] []] []

/-- Witness for C1: after cleanup the root carries no marker, and the marked
paragraph's border-left is back to its recorded original. -/
theorem C1_witness :
    (getAttr (cleanupTransforms c1wDoc) "data-pb-node" = none ∧
     getAttr (cleanupTransforms c1wDoc) "data-pb-transformed" = none ∧
     getAttr (cleanupTransforms c1wDoc) "data-pb-collapsed" = none) ∧
    alGet (cleanupData c1wData).styles "borderLeft" = some "1px solid black" := by
  refine ⟨(C1_cleanupTransforms_restores c1wDoc c1wData).1 _ ?_,
    (C1_cleanupTransforms_restores c1wDoc c1wData).2.2.1 "1px solid black" (by rfl)⟩
  rcases hE : cleanupTransforms c1wDoc with ⟨d0, cs0, sh0⟩
  rw [allElems]
  exact List.mem_cons_self _ _

def c1A : Elem :=
  .mk { eid := 1, tag := "p", ownText := "first",
        attrs := [("data-pb-node", "node-1")] } [] []

def c1B : Elem :=
  .mk { eid := 2, tag := "p", ownText := "second",
        attrs := [("data-pb-node", "node-2")] } [] []

def c1Doc : Elem := .mk { eid := 0, tag := "body" } [c1A, c1B] []

def c1re : TransformInstruction :=
  { action := .reorder, selector := .marker "node-2", position := some PosSpec.top,
    relevance := 90 }

def c1hl : TransformInstruction :=
  { action := .highlight, selector := .marker "node-1", relevance := 80 }

set_option maxRecDepth 8000 in
/-- Claim C1 counterexample: reorder the second paragraph to the top and
highlight the first, let every animation timeout fire, then run the full
restore pass.  The element moved by reorder stays moved (child order [2, 1],
not the pre-edit [1, 2]), and the highlight's border-radius — never recorded
and not among the restored properties — persists after cleanup even though
it was absent pre-edit. -/
theorem C1_counterexample :
    childEids c1Doc 0 = some [1, 2] ∧
    (byEid c1Doc 1).map (fun e => alGet e.dta.styles "borderRadius") = some none ∧
    childEids (cleanupTransforms (flushPendingAll
      (applyTransforms {} true "red" "bg" c1Doc [] ⟨[c1re, c1hl], "", "", none⟩))) 0
      = some [2, 1] ∧
    (byEid (cleanupTransforms (flushPendingAll
      (applyTransforms {} true "red" "bg" c1Doc [] ⟨[c1re, c1hl], "", "", none⟩))) 1).map
      (fun e => alGet e.dta.styles "borderRadius") = some (some "3px") := by
  exact ⟨rfl, rfl, rfl, rfl⟩
end PB
